import Mathlib

/-!
# Verification of the hass-savant-pbc core against its specification

Shallow embedding of the core routines of the `savant_energy` integration:

* `custom_components/savant_energy/utils.py` — DMX UID derivation
  (`calculate_dmx_uid`), the DMX command sender (`async_set_dmx_values`)
  with its process-wide statistics, and the API liveness check
  (`is_dmx_api_available`);
* `custom_components/savant_energy/switch.py` — the breaker switch state
  machine (`async_turn_on` / `async_turn_off`, the module-wide
  `_last_command_time` cooldown gate, `_get_all_device_dmx_states`,
  `_handle_coordinator_update`);
* `custom_components/savant_energy/snapshot_data.py` — the snapshot
  decoder (`get_current_energy_snapshot`), together with the JSON,
  base64 and UTF-8 codecs its behaviour depends on.

Strings are modelled as `List Char`, byte strings as `List Nat` (each
element < 256), wall-clock / monotonic instants as `ℚ`, and Python
`float` statistics as `ℚ` (every arithmetic operation performed by the
code on them is exact on the values reached).  Fallible operations
return `Option` / `Except`.
-/

namespace SavantPbc

/-! ## Python primitive helpers

Helpers mirroring the exact Python string / int primitives the source
uses.  `pyIntHex` models `int(s, 16)` (ASCII whitespace stripping,
optional sign, optional `0x` prefix, single underscores between
digits); `pyHexFmt2` models the format `f"{n:02X}"`. -/

/-- ASCII whitespace stripped by Python `int()`. -/
def isPyWs (c : Char) : Bool :=
  c = ' ' || c = '\t' || c = '\n' || c = '\r' || c = '\x0b' || c = '\x0c'

/-- Value of a single hexadecimal digit (either case), if it is one. -/
def hexDigitVal? (c : Char) : Option Nat :=
  if '0' ≤ c ∧ c ≤ '9' then some (c.toNat - '0'.toNat)
  else if 'a' ≤ c ∧ c ≤ 'f' then some (c.toNat - 'a'.toNat + 10)
  else if 'A' ≤ c ∧ c ≤ 'F' then some (c.toNat - 'A'.toNat + 10)
  else none

/-- Hex digits with single underscores allowed between digits, after the
first digit has been consumed into `acc`. -/
def hexDigitsCore : List Char → Nat → Option Nat
  | [], acc => some acc
  | c :: t, acc =>
    if c = '_' then
      match t with
      | [] => none
      | c2 :: t2 =>
        match hexDigitVal? c2 with
        | some v => hexDigitsCore t2 (acc * 16 + v)
        | none => none
    else
      match hexDigitVal? c with
      | some v => hexDigitsCore t (acc * 16 + v)
      | none => none

/-- Unsigned hex digit run: first char must be a digit. -/
def pyIntHexDigits : List Char → Option Nat
  | [] => none
  | c :: t =>
    match hexDigitVal? c with
    | some v => hexDigitsCore t v
    | none => none

/-- Unsigned part of `int(s, 16)`: optional `0x`/`0X` prefix (a single
underscore may follow the prefix), then digits. -/
def pyIntHexNoSign : List Char → Option Nat
  | c0 :: x :: t =>
    if c0 = '0' ∧ (x = 'x' ∨ x = 'X') then
      match t with
      | '_' :: t' => pyIntHexDigits t'
      | _ => pyIntHexDigits t
    else pyIntHexDigits (c0 :: x :: t)
  | s => pyIntHexDigits s

/-- Model of Python `int(s, 16)`: `none` when the call raises
`ValueError`.  (Only ASCII whitespace and digits are modelled.) -/
def pyIntHex (s : List Char) : Option Int :=
  let t := (s.dropWhile isPyWs).reverse.dropWhile isPyWs |>.reverse
  match t with
  | [] => none
  | c :: r =>
    if c = '+' then (pyIntHexNoSign r).map Int.ofNat
    else if c = '-' then (pyIntHexNoSign r).map (fun n => -(n : Int))
    else (pyIntHexNoSign (c :: r)).map Int.ofNat

/-- Uppercase hexadecimal digit character for `d < 16`. -/
def hexUpper (d : Nat) : Char :=
  if d < 10 then Char.ofNat ('0'.toNat + d) else Char.ofNat ('A'.toNat + (d - 10))

/-- Uppercase hexadecimal digits, fuel-indexed so the definition reduces
by computation; `fuel ≥ n` always suffices. -/
def hexDigitsUpperAux : Nat → Nat → List Char
  | 0, n => [hexUpper (n % 16)]
  | fuel + 1, n =>
    if n < 16 then [hexUpper n]
    else hexDigitsUpperAux fuel (n / 16) ++ [hexUpper (n % 16)]

/-- Uppercase hexadecimal digits of `n`, most significant first. -/
def hexDigitsUpper (n : Nat) : List Char := hexDigitsUpperAux n n

/-- Model of `f"{n:02X}"`: uppercase hex, zero-padded to (total) width 2;
a negative value carries a leading minus sign inside the width. -/
def pyHexFmt2 (n : Int) : List Char :=
  if n < 0 then '-' :: hexDigitsUpper n.natAbs
  else
    let ds := hexDigitsUpper n.toNat
    if ds.length < 2 then '0' :: ds else ds

/-! ## `calculate_dmx_uid` (utils.py lines 42–60) -/

/-- Does `l` end with the suffix `suf`?  Models Python `str.endswith`. -/
def listEndsWith (suf l : List Char) : Bool :=
  decide (l.drop (l.length - suf.length) = suf) && decide (suf.length ≤ l.length)

/-- `uid.split(".")[0]`: the characters before the first `'.'`. -/
def beforeFirstDot (uid : List Char) : List Char :=
  uid.takeWhile (fun c => c ≠ '.')

/-- The colon-formatted base `f"{base_uid[:4]}:{base_uid[4:]}"`. -/
def colonFormat (base : List Char) : List Char :=
  base.take 4 ++ ':' :: base.drop 4

/-- `try: incremented = f"{int(last_two, 16) + 1:02X}" except Exception:
incremented = last_two` — the body of the increment with its handler. -/
def tryIncrement (last_two : List Char) : List Char :=
  match pyIntHex last_two with
  | some n => pyHexFmt2 (n + 1)
  | none => last_two

/-- Embedding of `calculate_dmx_uid` (utils.py lines 42–60), on char
lists. -/
def calcDmxChars (uid : List Char) : List Char :=
  let base_uid := colonFormat (beforeFirstDot uid)
  if listEndsWith ['.', '1'] uid then
    base_uid.take (base_uid.length - 2) ++ tryIncrement (base_uid.drop (base_uid.length - 2))
  else base_uid

/-- `calculate_dmx_uid` on `String`, keeping the source's name. -/
def calculate_dmx_uid (uid : String) : String :=
  ⟨calcDmxChars uid.data⟩

/-- Exceptions a modelled Python operation can raise. -/
inductive PyExc where
  | valueError
  | unicodeError
  | binasciiError
  | jsonError
  deriving DecidableEq, Repr

/-- `int(last_two, 16)` as a raising operation: the only fallible call
inside `calculate_dmx_uid`. -/
def pyIntHexExc (s : List Char) : Except PyExc Int :=
  match pyIntHex s with
  | some n => Except.ok n
  | none => Except.error PyExc.valueError

/-- Exception-explicit run of `calculate_dmx_uid`: the `try`/`except
Exception` around the increment is the only handler, so the result shows
whether any exception can escape the function. -/
def calcDmxUidRun (uid : List Char) : Except PyExc (List Char) :=
  let base_uid := colonFormat (beforeFirstDot uid)
  if listEndsWith ['.', '1'] uid then
    let last_two := base_uid.drop (base_uid.length - 2)
    let incremented : Except PyExc (List Char) :=
      match pyIntHexExc last_two with
      | Except.ok n => Except.ok (pyHexFmt2 (n + 1))
      | Except.error _ => Except.ok last_two
    match incremented with
    | Except.ok inc => Except.ok (base_uid.take (base_uid.length - 2) ++ inc)
    | Except.error e => Except.error e
  else Except.ok base_uid

/-! ## DMX command sender statistics (utils.py lines 26–31, 274–332)

`_dmx_api_stats` is the module dict updated by `async_set_dmx_values`;
`_last_successful_api_call` is the separate module variable consulted by
`is_dmx_api_available` (and written only by the `get_dmx` status
readers, lines 179 and 235). -/

/-- The `_dmx_api_stats` module dict (utils.py lines 26–31). -/
structure DmxApiStats where
  request_count : Nat
  failure_count : Nat
  last_successful_call : Option ℚ
  success_rate : ℚ
  deriving DecidableEq, Repr

/-- Initial value of `_dmx_api_stats`. -/
def initDmxApiStats : DmxApiStats :=
  { request_count := 0, failure_count := 0, last_successful_call := none,
    success_rate := 100 }

/-- Outcome of the body of `async_set_dmx_values` after the counter
increment: the `curl` subprocess exits with a code, or some exception is
raised inside the `try` block. -/
inductive CurlOutcome where
  | done (returncode : Int)
  | exc
  deriving DecidableEq, Repr

/-- `((request_count - failure_count) / request_count) * 100.0`. -/
def recomputeRate (req fail : Nat) : ℚ :=
  ((req : ℚ) - (fail : ℚ)) / (req : ℚ) * 100

/-- Embedding of `async_set_dmx_values` (utils.py lines 274–332),
restricted to its effect on `_dmx_api_stats` and its returned boolean.
`now` is the value of `datetime.now()`, `curl` the subprocess outcome
(ignored in testing mode, where no subprocess runs). -/
def async_set_dmx_values (stats : DmxApiStats) (now : ℚ)
    (testing_mode : Bool) (curl : CurlOutcome) : DmxApiStats × Bool :=
  let req := stats.request_count + 1
  if testing_mode then
    ({ request_count := req, failure_count := stats.failure_count,
       last_successful_call := some now,
       success_rate := recomputeRate req stats.failure_count }, true)
  else
    match curl with
    | CurlOutcome.exc =>
      let f := stats.failure_count + 1
      ({ request_count := req, failure_count := f,
         last_successful_call := stats.last_successful_call,
         success_rate := recomputeRate req f }, false)
    | CurlOutcome.done rc =>
      if rc ≠ 0 then
        let f := stats.failure_count + 1
        ({ request_count := req, failure_count := f,
           last_successful_call := stats.last_successful_call,
           success_rate := recomputeRate req f }, false)
      else
        ({ request_count := req, failure_count := stats.failure_count,
           last_successful_call := some now,
           success_rate := recomputeRate req stats.failure_count }, true)

/-- One call's inputs, for folding a sequence of Send calls. -/
structure SendCall where
  now : ℚ
  testing_mode : Bool
  curl : CurlOutcome

/-- Fold a sequence of `async_set_dmx_values` calls over the stats. -/
def runSends (stats : DmxApiStats) : List SendCall → DmxApiStats
  | [] => stats
  | c :: t => runSends (async_set_dmx_values stats c.now c.testing_mode c.curl).1 t

/-- `DMX_API_TIMEOUT` (utils.py line 22). -/
def DMX_API_TIMEOUT : ℚ := 30

/-- Embedding of `is_dmx_api_available` (utils.py lines 335–347): it
reads the module variable `_last_successful_api_call`, which the status
readers update — not the `last_successful_call` entry of
`_dmx_api_stats` that `async_set_dmx_values` updates. -/
def is_dmx_api_available (last_successful_api_call : Option ℚ) (now : ℚ) : Bool :=
  match last_successful_api_call with
  | none => true
  | some t => now - t < DMX_API_TIMEOUT

/-- The two module-level stores of utils.py that the sender and the
liveness check touch. -/
structure UtilsGlobals where
  dmx_api_stats : DmxApiStats
  last_successful_api_call : Option ℚ
  deriving DecidableEq, Repr

/-- `async_set_dmx_values` acting on the whole module state: it assigns
only `_dmx_api_stats`; `_last_successful_api_call` is not mentioned in
its body (utils.py lines 274–332). -/
def sendOnGlobals (g : UtilsGlobals) (now : ℚ) (testing_mode : Bool)
    (curl : CurlOutcome) : UtilsGlobals × Bool :=
  let r := async_set_dmx_values g.dmx_api_stats now testing_mode curl
  ({ dmx_api_stats := r.1,
     last_successful_api_call := g.last_successful_api_call }, r.2)

/-! ## Frame building (utils.py lines 288–300, switch.py lines 120–184)

`channel_values` is a Python dict; it is modelled as an association
list with distinct keys, insertion-ordered, with `alInsert` as dict
assignment.  Keys are `Int` (Python ints). -/

/-- Dict lookup. -/
def alLookup : List (Int × String) → Int → Option String
  | [], _ => none
  | p :: t, k => if p.1 = k then some p.2 else alLookup t k

/-- Dict assignment `d[k] = v`: overwrite in place or append. -/
def alInsert : List (Int × String) → Int → String → List (Int × String)
  | [], k, v => [(k, v)]
  | p :: t, k, v => if p.1 = k then (k, v) :: t else p :: alInsert t k v

/-- The keys of the dict. -/
def alKeys (l : List (Int × String)) : List Int := l.map Prod.fst

/-- `max(channel_values.keys()) if channel_values else 0`
(utils.py line 289). -/
def pyMaxKeys : List (Int × String) → Int
  | [] => 0
  | p :: t => t.foldl (fun m q => max m q.1) p.1

/-- `str.lower()`, character-wise (computable form). -/
def pyLower (s : String) : String := ⟨s.data.map Char.toLower⟩

/-- The ON test of utils.py line 295:
`str(value) == "255" or str(value).lower() == "on" or str(value) == "1"`. -/
def isOnValue (v : String) : Bool :=
  v == "255" || pyLower v == "on" || v == "1"

/-- One iteration of the loop of utils.py lines 293–298. -/
def setChannelSlot (maxC : Int) (arr : List String) (p : Int × String) : List String :=
  if 1 ≤ p.1 ∧ p.1 ≤ maxC then
    arr.set (p.1 - 1).toNat (if isOnValue p.2 then "255" else "0")
  else arr

/-- The dense value array built by `async_set_dmx_values`
(utils.py lines 289–300): length `max_channel`, slots defaulted to
`"0"`, then each channel's slot written from the dict. -/
def setDmxValueArray (channel_values : List (Int × String)) : List String :=
  let maxC := pyMaxKeys channel_values
  channel_values.foldl (setChannelSlot maxC) (List.replicate maxC.toNat "0")

/-- Embedding of the tail of `_get_all_device_dmx_states`
(switch.py lines 178–184): apply the target override to the states dict
already collected from the sensors, tracking `max_address`.  Python's
`if target_dmx_address:` is integer truthiness. -/
def getAllDeviceDmxStates (dmx_states : List (Int × String))
    (target : Option (Int × String)) : List (Int × String) × Int :=
  let maxA := dmx_states.foldl (fun m p => if p.1 > m then p.1 else m) 0
  match target with
  | some (a, v) =>
    if a ≠ 0 then (alInsert dmx_states a v, if a > maxA then a else maxA)
    else (dmx_states, maxA)
  | none => (dmx_states, maxA)

/-- The frame a toggle builds and sends (`_send_full_dmx_command` →
`async_set_dmx_values`): the merged dict rendered as the dense array. -/
def buildFrame (dmx_states : List (Int × String))
    (target : Option (Int × String)) : List String :=
  setDmxValueArray (getAllDeviceDmxStates dmx_states target).1

/-! ## Breaker switch state machine (switch.py lines 18, 244–319) -/

/-- Per-entity mutable state of `EnergyDeviceSwitch`: `_attr_is_on` and
`_last_commanded_state` (both `bool | None`). -/
structure BreakerState where
  attr_is_on : Option Bool
  last_commanded : Option Bool
  deriving DecidableEq, Repr

/-- The `is_on` property (switch.py lines 222–242): the stored state if
set, else the relay-status binary sensor, else `False`. -/
def isOnProp (st : BreakerState) (relaySensor : Option Bool) : Bool :=
  match st.attr_is_on with
  | some b => b
  | none => relaySensor.getD false

/-- Environment a toggle call runs in: configured cooldown, current
`time.monotonic()`, this breaker's relay-status sensor reading, the DMX
address sensor reading, and the result the DMX send would return. -/
structure ToggleEnv where
  cooldown : ℚ
  now : ℚ
  relaySensor : Option Bool
  dmxAddr : Option Int
  sendOk : Bool

/-- Observable outcome of one toggle call: the entity state after the
call, the module-wide `_last_command_time` after the call, how many
address fetches and DMX sends were performed, and whether the
rate-limited persistent notification was created. -/
structure ToggleOut where
  st : BreakerState
  lastCmdTime : ℚ
  fetches : Nat
  sends : Nat
  notified : Bool
  deriving DecidableEq, Repr

/-- Embedding of `async_turn_on` (switch.py lines 244–271).  Note the
send result `env.sendOk` is not consulted: line 268 discards the value
returned by `_send_full_dmx_command`, and lines 269–271 update the
cached state unconditionally. -/
def asyncTurnOn (env : ToggleEnv) (lastCmd : ℚ) (st : BreakerState) : ToggleOut :=
  if env.now - lastCmd < env.cooldown then
    { st := st, lastCmdTime := lastCmd, fetches := 0, sends := 0, notified := true }
  else if isOnProp st env.relaySensor = false then
    match env.dmxAddr with
    | none =>
      { st := st, lastCmdTime := env.now, fetches := 1, sends := 0, notified := false }
    | some _ =>
      { st := { attr_is_on := some true, last_commanded := some true },
        lastCmdTime := env.now, fetches := 1, sends := 1, notified := false }
  else
    { st := st, lastCmdTime := lastCmd, fetches := 0, sends := 0, notified := false }

/-- Embedding of `async_turn_off` (switch.py lines 273–300), symmetric
to `asyncTurnOn`; the send result is likewise discarded (line 297). -/
def asyncTurnOff (env : ToggleEnv) (lastCmd : ℚ) (st : BreakerState) : ToggleOut :=
  if env.now - lastCmd < env.cooldown then
    { st := st, lastCmdTime := lastCmd, fetches := 0, sends := 0, notified := true }
  else if isOnProp st env.relaySensor = true then
    match env.dmxAddr with
    | none =>
      { st := st, lastCmdTime := env.now, fetches := 1, sends := 0, notified := false }
    | some _ =>
      { st := { attr_is_on := some false, last_commanded := some false },
        lastCmdTime := env.now, fetches := 1, sends := 1, notified := false }
  else
    { st := st, lastCmdTime := lastCmd, fetches := 0, sends := 0, notified := false }

/-- Embedding of `_handle_coordinator_update` (switch.py lines
302–319): `newRelay` is the relay-status binary sensor value found for
this device (`none` when no matching sensor exists).  The update is
adopted whenever it differs from `_last_commanded_state`; the function
reads no clock and no cooldown. -/
def handleCoordinatorUpdate (newRelay : Option Bool) (st : BreakerState) : BreakerState :=
  match newRelay with
  | none => st
  | some ns =>
    if some ns ≠ st.last_commanded then
      { attr_is_on := some ns, last_commanded := some ns }
    else st

/-! ## JSON documents

The snapshot payload is a JSON document.  Python-side values are
modelled by `Json`: numbers carry their decimal form (sign, integer
digits, fraction digits, exponent) — every number `json.dumps` can emit
is of this shape, and `json.loads` of such a literal compares equal to
the original Python number; objects are insertion-ordered key/value
lists, with well-formedness requiring distinct keys (under which a
Python dict and the list agree). -/

/-- A JSON number as its decimal literal: sign, integer digits,
fraction digits (empty = none), optional exponent (sign, digits). -/
structure JNum where
  neg : Bool
  ip : List Nat
  fp : List Nat
  ep : Option (Bool × List Nat)
  deriving DecidableEq, Repr

mutual

inductive Json where
  | null
  | bool (b : Bool)
  | num (n : JNum)
  | str (s : List Char)
  | arr (xs : JsonList)
  | obj (kvs : JsonKVs)
  deriving DecidableEq, Repr

inductive JsonList where
  | nil
  | cons (hd : Json) (tl : JsonList)
  deriving DecidableEq, Repr

inductive JsonKVs where
  | nil
  | cons (k : List Char) (v : Json) (tl : JsonKVs)
  deriving DecidableEq, Repr

end

/-- All digits below ten. -/
def wfDigits (l : List Nat) : Bool := l.all (fun d => d < 10)

/-- Well-formed exponent: digits present and below ten. -/
def wfEp : Option (Bool × List Nat) → Bool
  | none => true
  | some (_, ds) => decide (ds ≠ []) && wfDigits ds

/-- A number literal `json.dumps` can produce: nonempty integer part
with no leading zero, digit values below ten, nonempty exponent digits
when an exponent is present. -/
def wfJNum (n : JNum) : Bool :=
  decide (n.ip ≠ []) && wfDigits n.ip &&
  (decide (n.ip = [0]) || decide (n.ip.head? ≠ some 0)) &&
  wfDigits n.fp && wfEp n.ep

/-- The keys of an object, in order. -/
def kvsKeys : JsonKVs → List (List Char)
  | JsonKVs.nil => []
  | JsonKVs.cons k _ t => k :: kvsKeys t

mutual

/-- Well-formed document: numbers well-formed, object keys distinct. -/
def wfJson : Json → Bool
  | Json.null => true
  | Json.bool _ => true
  | Json.num n => wfJNum n
  | Json.str _ => true
  | Json.arr xs => wfJsonList xs
  | Json.obj kvs => (kvsKeys kvs).Nodup && wfJsonKVs kvs

def wfJsonList : JsonList → Bool
  | JsonList.nil => true
  | JsonList.cons h t => wfJson h && wfJsonList t

def wfJsonKVs : JsonKVs → Bool
  | JsonKVs.nil => true
  | JsonKVs.cons _ v t => wfJson v && wfJsonKVs t

end

/-! ### The printer: `json.dumps` with its defaults

Defaults of `json.dumps(obj)`: `ensure_ascii=True` (every character
outside `0x20`–`0x7e` escaped, non-BMP characters as surrogate pairs),
separators `", "` and `": "`, no indent. -/

/-- Decimal digit character. -/
def digitChar (d : Nat) : Char := Char.ofNat (48 + d)

/-- Digit values to characters. -/
def digitsChars (l : List Nat) : List Char := l.map digitChar

/-- Lowercase hexadecimal digit character. -/
def hexLower (d : Nat) : Char :=
  if d < 10 then Char.ofNat (48 + d) else Char.ofNat (87 + d)

/-- Four lowercase hex digits of `n < 0x10000`, as in `\uXXXX`. -/
def toHex4 (n : Nat) : List Char :=
  [hexLower (n / 4096 % 16), hexLower (n / 256 % 16),
   hexLower (n / 16 % 16), hexLower (n % 16)]

/-- `json.dumps` escaping of one character (`ensure_ascii=True`). -/
def escChar (c : Char) : List Char :=
  if c = '\\' then ['\\', '\\']
  else if c = '"' then ['\\', '"']
  else if c = '\x08' then ['\\', 'b']
  else if c = '\x0c' then ['\\', 'f']
  else if c = '\n' then ['\\', 'n']
  else if c = '\r' then ['\\', 'r']
  else if c = '\t' then ['\\', 't']
  else if 0x20 ≤ c.toNat ∧ c.toNat ≤ 0x7e then [c]
  else if c.toNat < 0x10000 then '\\' :: 'u' :: toHex4 c.toNat
  else
    let v := c.toNat - 0x10000
    '\\' :: 'u' :: toHex4 (0xd800 + v / 0x400) ++
      '\\' :: 'u' :: toHex4 (0xdc00 + v % 0x400)

/-- Escape a whole string body. -/
def escString (s : List Char) : List Char :=
  s.foldr (fun c acc => escChar c ++ acc) []

/-- A quoted, escaped JSON string. -/
def dumpStr (s : List Char) : List Char := '"' :: escString s ++ ['"']

/-- Fraction digits as printed (empty when there are none). -/
def fracChars (fp : List Nat) : List Char :=
  if fp = [] then [] else '.' :: digitsChars fp

/-- Exponent as printed (`e` with an explicit sign, as `repr` emits). -/
def expChars : Option (Bool × List Nat) → List Char
  | none => []
  | some (s, ds) => 'e' :: (if s then '-' else '+') :: digitsChars ds

/-- The decimal literal of a number, exactly as Python prints it
(`repr` of a float / decimal of an int). -/
def printJNum (n : JNum) : List Char :=
  (if n.neg then ['-'] else []) ++ digitsChars n.ip ++ fracChars n.fp ++ expChars n.ep

mutual

/-- `json.dumps` with default separators, on char lists. -/
def dumpJson : Json → List Char
  | Json.null => ['n', 'u', 'l', 'l']
  | Json.bool true => ['t', 'r', 'u', 'e']
  | Json.bool false => ['f', 'a', 'l', 's', 'e']
  | Json.num n => printJNum n
  | Json.str s => dumpStr s
  | Json.arr xs => '[' :: dumpArrBody xs
  | Json.obj kvs => '{' :: dumpObjBody kvs

def dumpArrBody : JsonList → List Char
  | JsonList.nil => [']']
  | JsonList.cons h t => dumpJson h ++ dumpArrSep t

def dumpArrSep : JsonList → List Char
  | JsonList.nil => [']']
  | JsonList.cons h t => ',' :: ' ' :: (dumpJson h ++ dumpArrSep t)

def dumpObjBody : JsonKVs → List Char
  | JsonKVs.nil => ['}']
  | JsonKVs.cons k v t => dumpStr k ++ ':' :: ' ' :: (dumpJson v ++ dumpObjSep t)

def dumpObjSep : JsonKVs → List Char
  | JsonKVs.nil => ['}']
  | JsonKVs.cons k v t =>
    ',' :: ' ' :: (dumpStr k ++ ':' :: ' ' :: (dumpJson v ++ dumpObjSep t))

end

/-! ### The parser: `json.loads`

Recursive-descent reader mirroring Python's `json.loads` (strict mode):
JSON whitespace skipping, the `(0|[1-9]\d*)(\.\d+)?([eE][-+]?\d+)?`
number grammar, `\uXXXX` escapes with surrogate-pair reassembly, raw
control characters rejected inside strings.  A fuel argument makes the
recursion structural; `jsonLoads` supplies fuel ample for its input. -/

/-- The whitespace `json.loads` skips: space, tab, newline, return. -/
def isJsonWs (c : Char) : Bool := c = ' ' || c = '\t' || c = '\n' || c = '\r'

/-- Skip JSON whitespace. -/
def skipWs (s : List Char) : List Char := s.dropWhile isJsonWs

/-- ASCII decimal digit test. -/
def isDigitCh (c : Char) : Bool := '0' ≤ c && c ≤ '9'

/-- Value of an ASCII decimal digit. -/
def digitVal (c : Char) : Nat := c.toNat - 48

/-- The one-character string escapes `json.loads` accepts. -/
def escCode? (e : Char) : Option Char :=
  if e = '"' then some '"'
  else if e = '\\' then some '\\'
  else if e = '/' then some '/'
  else if e = 'b' then some '\x08'
  else if e = 'f' then some '\x0c'
  else if e = 'n' then some '\n'
  else if e = 'r' then some '\r'
  else if e = 't' then some '\t'
  else none

/-- Read exactly four hex digits. -/
def parseHex4 : List Char → Option (Nat × List Char)
  | a :: b :: c :: d :: t =>
    match hexDigitVal? a, hexDigitVal? b, hexDigitVal? c, hexDigitVal? d with
    | some va, some vb, some vc, some vd =>
      some (va * 4096 + vb * 256 + vc * 16 + vd, t)
    | _, _, _, _ => none
  | _ => none

/-- Read a string body after the opening quote, handling escapes and
surrogate pairs.  (Python tolerates unpaired surrogates, which `Char`
cannot carry; such inputs are mapped to failure — they cannot arise
from any dump of a document.) -/
def parseJString : Nat → List Char → Option (List Char × List Char)
  | 0, _ => none
  | _ + 1, [] => none
  | fuel + 1, c :: t =>
      if c = '"' then some ([], t)
      else if c = '\\' then
        match t with
        | [] => none
        | e :: t2 =>
          match escCode? e with
          | some ch =>
            (parseJString fuel t2).map (fun p => (ch :: p.1, p.2))
          | none =>
            if e = 'u' then
              match parseHex4 t2 with
              | none => none
              | some (h, t3) =>
                if 0xd800 ≤ h ∧ h ≤ 0xdbff then
                  match t3 with
                  | a :: b :: t4 =>
                    if a = '\\' ∧ b = 'u' then
                      match parseHex4 t4 with
                      | none => none
                      | some (lo, t5) =>
                        if 0xdc00 ≤ lo ∧ lo ≤ 0xdfff then
                          (parseJString fuel t5).map (fun p =>
                            (Char.ofNat (0x10000 + (h - 0xd800) * 0x400 + (lo - 0xdc00)) :: p.1, p.2))
                        else none
                    else none
                  | _ => none
                else if 0xdc00 ≤ h ∧ h ≤ 0xdfff then none
                else (parseJString fuel t3).map (fun p => (Char.ofNat h :: p.1, p.2))
            else none
      else if c.toNat < 0x20 then none
      else (parseJString fuel t).map (fun p => (c :: p.1, p.2))

/-- Optional fraction part `(\.\d+)?`: consumed only when a digit
follows the dot, otherwise left in place (as the regex group does). -/
def parseFrac (s : List Char) : List Nat × List Char :=
  match s with
  | c :: t =>
    if c = '.' then
      let ds := t.takeWhile isDigitCh
      if ds = [] then ([], c :: t) else (ds.map digitVal, t.dropWhile isDigitCh)
    else ([], c :: t)
  | [] => ([], [])

/-- The optional `[-+]` sign after the exponent marker. -/
def expSign : List Char → Bool × List Char
  | [] => (false, [])
  | c2 :: r =>
    if c2 = '+' then (false, r)
    else if c2 = '-' then (true, r)
    else (false, c2 :: r)

/-- Optional exponent part `([eE][-+]?\d+)?`, likewise. -/
def parseExpPart : List Char → Option (Bool × List Nat) × List Char
  | [] => (none, [])
  | c :: t =>
    if c = 'e' ∨ c = 'E' then
      let sg := expSign t
      let ds := sg.2.takeWhile isDigitCh
      if ds = [] then (none, c :: t)
      else (some (sg.1, ds.map digitVal), sg.2.dropWhile isDigitCh)
    else (none, c :: t)

/-- Integer part and what follows, after the optional minus sign:
`(0|[1-9]\d*)(\.\d+)?([eE][-+]?\d+)?`. -/
def parseJNumBody (neg : Bool) : List Char → Option (JNum × List Char)
  | [] => none
  | c :: t =>
    if c = '0' then
      let f := parseFrac t
      let e := parseExpPart f.2
      some ({ neg := neg, ip := [0], fp := f.1, ep := e.1 }, e.2)
    else if isDigitCh c then
      let ds := t.takeWhile isDigitCh
      let f := parseFrac (t.dropWhile isDigitCh)
      let e := parseExpPart f.2
      some ({ neg := neg, ip := digitVal c :: ds.map digitVal, fp := f.1, ep := e.1 }, e.2)
    else none

/-- Number literal per the `json.loads` regex
`-?(0|[1-9]\d*)(\.\d+)?([eE][-+]?\d+)?`. -/
def parseJNum : List Char → Option (JNum × List Char)
  | [] => none
  | c :: t =>
    if c = '-' then parseJNumBody true t
    else parseJNumBody false (c :: t)

/-- The three characters completing a `null` / `true` literal. -/
def lit3 (a b c : Char) (v : Json) : List Char → Option (Json × List Char)
  | c1 :: c2 :: c3 :: r => if c1 = a ∧ c2 = b ∧ c3 = c then some (v, r) else none
  | _ => none

/-- The four characters completing a `false` literal. -/
def lit4 (a b c d : Char) (v : Json) : List Char → Option (Json × List Char)
  | c1 :: c2 :: c3 :: c4 :: r =>
    if c1 = a ∧ c2 = b ∧ c3 = c ∧ c4 = d then some (v, r) else none
  | _ => none

mutual

/-- One JSON value, dispatching on the first character as Python's
scanner does. -/
def parseValue : Nat → List Char → Option (Json × List Char)
  | 0, _ => none
  | _ + 1, [] => none
  | fuel + 1, c :: t =>
      if c = '"' then (parseJString fuel t).map (fun p => (Json.str p.1, p.2))
      else if c = '{' then parseObjFirst fuel t
      else if c = '[' then parseArrFirst fuel t
      else if c = 'n' then lit3 'u' 'l' 'l' Json.null t
      else if c = 't' then lit3 'r' 'u' 'e' (Json.bool true) t
      else if c = 'f' then lit4 'a' 'l' 's' 'e' (Json.bool false) t
      else (parseJNum (c :: t)).map (fun p => (Json.num p.1, p.2))

/-- Array opener: input is what follows `'['`. -/
def parseArrFirst : Nat → List Char → Option (Json × List Char)
  | 0, _ => none
  | fuel + 1, s =>
    match skipWs s with
    | [] => none
    | c :: r =>
      if c = ']' then some (Json.arr JsonList.nil, r)
      else
        match parseValue fuel (c :: r) with
        | none => none
        | some (v, r2) =>
          match parseArrRest fuel r2 with
          | none => none
          | some (tl, r3) => some (Json.arr (JsonList.cons v tl), r3)

/-- After an array element: `,` and another element, or `]`. -/
def parseArrRest : Nat → List Char → Option (JsonList × List Char)
  | 0, _ => none
  | fuel + 1, s =>
    match skipWs s with
    | [] => none
    | c :: r =>
      if c = ']' then some (JsonList.nil, r)
      else if c = ',' then
        match parseValue fuel (skipWs r) with
        | none => none
        | some (v, r2) =>
          match parseArrRest fuel r2 with
          | none => none
          | some (tl, r3) => some (JsonList.cons v tl, r3)
      else none

/-- Key/value member after its key string: `ws ':' ws value`. -/
def parseMember : Nat → List Char → Option (Json × List Char)
  | 0, _ => none
  | fuel + 1, s =>
    match skipWs s with
    | c :: r => if c = ':' then parseValue fuel (skipWs r) else none
    | [] => none

/-- Object opener: input is what follows `'{'`. -/
def parseObjFirst : Nat → List Char → Option (Json × List Char)
  | 0, _ => none
  | fuel + 1, s =>
    match skipWs s with
    | [] => none
    | c :: r =>
      if c = '}' then some (Json.obj JsonKVs.nil, r)
      else if c = '"' then
        match parseJString fuel r with
        | none => none
        | some (k, r2) =>
          match parseMember fuel r2 with
          | none => none
          | some (v, r3) =>
            match parseObjRest fuel r3 with
            | none => none
            | some (tl, r4) => some (Json.obj (JsonKVs.cons k v tl), r4)
      else none

/-- After an object member: `,` and another member, or `}`. -/
def parseObjRest : Nat → List Char → Option (JsonKVs × List Char)
  | 0, _ => none
  | fuel + 1, s =>
    match skipWs s with
    | [] => none
    | c :: r =>
      if c = '}' then some (JsonKVs.nil, r)
      else if c = ',' then
        match skipWs r with
        | c2 :: r2 =>
          if c2 = '"' then
            match parseJString fuel r2 with
            | none => none
            | some (k, r3) =>
              match parseMember fuel r3 with
              | none => none
              | some (v, r4) =>
                match parseObjRest fuel r4 with
                | none => none
                | some (tl, r5) => some (JsonKVs.cons k v tl, r5)
          else none
        | [] => none
      else none

end

/-- `json.loads`: parse one value surrounded by optional whitespace,
requiring the input to be exhausted.  Fuel `3·|s| + 3` is ample: the
reader strictly consumes input as fuel decreases. -/
def jsonLoads (s : List Char) : Option Json :=
  match parseValue (3 * s.length + 3) (skipWs s) with
  | none => none
  | some (v, rest) => if skipWs rest = [] then some v else none

/-! ## Base64 (`base64.b64encode` / `base64.b64decode`)

Bytes are `Nat` values below 256.  Decoding mirrors the default
(non-validating) `b64decode`: characters outside the alphabet and
padding are discarded, then complete quads are required. -/

/-- Standard base64 alphabet character of a 6-bit value. -/
def b64Char (x : Nat) : Char :=
  if x < 26 then Char.ofNat (65 + x)
  else if x < 52 then Char.ofNat (97 + (x - 26))
  else if x < 62 then Char.ofNat (48 + (x - 52))
  else if x = 62 then '+' else '/'

/-- 6-bit value of a base64 alphabet character. -/
def b64Val? (c : Char) : Option Nat :=
  if 'A' ≤ c ∧ c ≤ 'Z' then some (c.toNat - 65)
  else if 'a' ≤ c ∧ c ≤ 'z' then some (c.toNat - 97 + 26)
  else if '0' ≤ c ∧ c ≤ '9' then some (c.toNat - 48 + 52)
  else if c = '+' then some 62
  else if c = '/' then some 63
  else none

/-- `base64.b64encode`: three bytes to four characters, padded. -/
def b64encode : List Nat → List Char
  | [] => []
  | [b1] => [b64Char (b1 / 4), b64Char (b1 % 4 * 16), '=', '=']
  | [b1, b2] =>
    [b64Char (b1 / 4), b64Char (b1 % 4 * 16 + b2 / 16), b64Char (b2 % 16 * 4), '=']
  | b1 :: b2 :: b3 :: t =>
    b64Char (b1 / 4) :: b64Char (b1 % 4 * 16 + b2 / 16) ::
    b64Char (b2 % 16 * 4 + b3 / 64) :: b64Char (b3 % 64) :: b64encode t

/-- Decode cleaned base64 text quad by quad; `none` models
`binascii.Error` (incorrect padding / truncated input). -/
def b64decodeQuads : List Char → Option (List Nat)
  | [] => some []
  | [_] => none
  | [_, _] => none
  | [_, _, _] => none
  | a :: b :: c :: d :: t =>
    match b64Val? a, b64Val? b with
    | some va, some vb =>
      if c = '=' ∧ d = '=' ∧ t = [] then some [va * 4 + vb / 16]
      else
        match b64Val? c with
        | some vc =>
          if d = '=' ∧ t = [] then some [va * 4 + vb / 16, vb % 16 * 16 + vc / 4]
          else
            match b64Val? d with
            | some vd =>
              (b64decodeQuads t).map (fun r =>
                (va * 4 + vb / 16) :: (vb % 16 * 16 + vc / 4) :: (vc % 4 * 64 + vd) :: r)
            | none => none
        | none => none
    | _, _ => none

/-- `base64.b64decode` on text (default non-validating mode). -/
def b64decode (s : List Char) : Option (List Nat) :=
  b64decodeQuads (s.filter (fun c => (b64Val? c).isSome || c = '='))

/-! ## UTF-8 (`str.encode` / `bytes.decode`) -/

/-- UTF-8 bytes of one scalar value. -/
def utf8EncodeChar (c : Char) : List Nat :=
  let n := c.toNat
  if n < 0x80 then [n]
  else if n < 0x800 then [0xc0 + n / 64, 0x80 + n % 64]
  else if n < 0x10000 then [0xe0 + n / 4096, 0x80 + n / 64 % 64, 0x80 + n % 64]
  else [0xf0 + n / 0x40000, 0x80 + n / 4096 % 64, 0x80 + n / 64 % 64, 0x80 + n % 64]

/-- `str.encode("utf-8")`. -/
def utf8Encode (s : List Char) : List Nat :=
  s.foldr (fun c acc => utf8EncodeChar c ++ acc) []

/-- `bytes.decode("utf-8")`, fuel-indexed to keep the recursion
structural; every step consumes at least one byte, so fuel `|data|`
(supplied by `utf8Decode`) is never exhausted. -/
def utf8DecodeF : Nat → List Nat → Option (List Char)
  | _, [] => some []
  | 0, _ :: _ => none
  | fuel + 1, b :: t =>
    if b < 0x80 then (utf8DecodeF fuel t).map (fun r => Char.ofNat b :: r)
    else if b < 0xc2 then none
    else if b < 0xe0 then
      match t with
      | b2 :: t2 =>
        if 0x80 ≤ b2 ∧ b2 < 0xc0 then
          (utf8DecodeF fuel t2).map (fun r =>
            Char.ofNat ((b - 0xc0) * 64 + (b2 - 0x80)) :: r)
        else none
      | [] => none
    else if b < 0xf0 then
      match t with
      | b2 :: b3 :: t3 =>
        if (if b = 0xe0 then 0xa0 else 0x80) ≤ b2 ∧ b2 ≤ (if b = 0xed then 0x9f else 0xbf) ∧
            0x80 ≤ b3 ∧ b3 < 0xc0 then
          (utf8DecodeF fuel t3).map (fun r =>
            Char.ofNat ((b - 0xe0) * 4096 + (b2 - 0x80) * 64 + (b3 - 0x80)) :: r)
        else none
      | _ => none
    else if b < 0xf5 then
      match t with
      | b2 :: b3 :: b4 :: t4 =>
        if (if b = 0xf0 then 0x90 else 0x80) ≤ b2 ∧ b2 ≤ (if b = 0xf4 then 0x8f else 0xbf) ∧
            0x80 ≤ b3 ∧ b3 < 0xc0 ∧ 0x80 ≤ b4 ∧ b4 < 0xc0 then
          (utf8DecodeF fuel t4).map (fun r =>
            Char.ofNat ((b - 0xf0) * 0x40000 + (b2 - 0x80) * 4096 + (b3 - 0x80) * 64 + (b4 - 0x80)) :: r)
        else none
      | _ => none
    else none

/-- `bytes.decode("utf-8")`: `none` models `UnicodeDecodeError`
(continuation-byte, overlong, surrogate and range checks included). -/
def utf8Decode (data : List Nat) : Option (List Char) := utf8DecodeF data.length data

/-! ## Snapshot decoder (snapshot_data.py lines 10–70) -/

/-- Is `pat` a leading segment of `s`?  Models `str.startswith`. -/
def leadsWith : List Char → List Char → Bool
  | [], _ => true
  | _ :: _, [] => false
  | a :: xs, b :: ys => a = b && leadsWith xs ys

/-- Python's `pat in s` substring test. -/
def pyContains (pat : List Char) : List Char → Bool
  | [] => leadsWith pat []
  | c :: t => leadsWith pat (c :: t) || pyContains pat t

/-- `s.split(pat, 1)[1]`: everything after the first occurrence
(callers guard with `pyContains`, so the `[]` fallback is unreachable
there). -/
def splitAfterFirst (pat : List Char) : List Char → List Char
  | [] => []
  | c :: t =>
    if leadsWith pat (c :: t) then (c :: t).drop pat.length
    else splitAfterFirst pat t

/-- `s.split(pat, 1)[0]`: everything before the first occurrence (the
whole string when there is none). -/
def beforeFirst (pat : List Char) : List Char → List Char
  | [] => []
  | c :: t => if leadsWith pat (c :: t) then [] else c :: beforeFirst pat t

/-- The literal marker `"SET_ENERGY="`. -/
def markerChars : List Char :=
  ['S', 'E', 'T', '_', 'E', 'N', 'E', 'R', 'G', 'Y', '=']

/-- Which exit of `get_current_energy_snapshot` was taken.  Each
constructor corresponds to one `return` site / handler of
snapshot_data.py: `connError` to the `socket.error` handler (line 65),
`noData` to `if not data` (line 25), `unexpectedError` to the
catch-all `except Exception` (line 68), `b64Error` to the
`base64.binascii.Error` handler (line 55), `jsonError` to the
`json.JSONDecodeError` handler (line 61), `ok` to the normal return. -/
inductive SnapOutcome where
  | connError
  | noData
  | unexpectedError
  | b64Error
  | jsonError
  | ok (doc : Json)
  deriving DecidableEq, Repr

/-- Decode-stage failures: the spec's `DecodeError` class. -/
def SnapOutcome.isDecodeError : SnapOutcome → Bool
  | SnapOutcome.b64Error => true
  | SnapOutcome.jsonError => true
  | _ => false

/-- Line 31–32: keep what follows the first `"SET_ENERGY="`. -/
def snapStep1 (s0 : List Char) : List Char :=
  if pyContains markerChars s0 then splitAfterFirst markerChars s0 else s0

/-- Line 35–36: keep what precedes the first newline. -/
def snapStep2 (s1 : List Char) : List Char :=
  if pyContains ['\n'] s1 then beforeFirst ['\n'] s1 else s1

/-- Line 40–41: keep what follows the first newline. -/
def snapStep3 (s2 : List Char) : List Char :=
  if pyContains ['\n'] s2 then splitAfterFirst ['\n'] s2 else s2

/-- Line 43–44: strip a leading `"SET_ENERGY="`. -/
def snapStep4 (s3 : List Char) : List Char :=
  if leadsWith markerChars s3 then s3.drop markerChars.length else s3

/-- The marker/newline stripping (snapshot_data.py lines 31–44). -/
def snapshotPayload (s0 : List Char) : List Char :=
  snapStep4 (snapStep3 (snapStep2 (snapStep1 s0)))

/-- The body of `get_current_energy_snapshot` after the socket read
(snapshot_data.py lines 25–63), on the accumulated bytes.  Note the
inner `except` at line 55 catches only `binascii.Error`, so a
`UnicodeDecodeError` from `.decode("utf-8")` at line 51 falls through
to the catch-all. -/
def processSnapshotBytes (data : List Nat) : SnapOutcome :=
  if data = [] then SnapOutcome.noData
  else
    match utf8Decode data with
    | none => SnapOutcome.unexpectedError
    | some s0 =>
      match b64decode (snapshotPayload s0) with
      | none => SnapOutcome.b64Error
      | some bytes =>
        match utf8Decode bytes with
        | none => SnapOutcome.unexpectedError
        | some js =>
          match jsonLoads js with
          | none => SnapOutcome.jsonError
          | some doc => SnapOutcome.ok doc

/-- What the socket read produced: an exception, or the accumulated
bytes (possibly empty when the peer closed immediately). -/
def snapshotOutcome (sock : Except Unit (List Nat)) : SnapOutcome :=
  match sock with
  | Except.error _ => SnapOutcome.connError
  | Except.ok data => processSnapshotBytes data

/-- The value each exit returns: `None` on every failure path. -/
def SnapOutcome.toReturn : SnapOutcome → Option Json
  | SnapOutcome.ok doc => some doc
  | _ => none

/-- Embedding of `get_current_energy_snapshot` (snapshot_data.py
lines 10–70). -/
def get_current_energy_snapshot (sock : Except Unit (List Nat)) : Option Json :=
  (snapshotOutcome sock).toReturn

/-- The framing of C5: `b"\nSET_ENERGY=" + base64(json(doc)) + b"\n"`. -/
def framedSnapshotBytes (doc : Json) : List Nat :=
  utf8Encode ('\n' :: markerChars) ++
    utf8Encode (b64encode (utf8Encode (dumpJson doc))) ++ [10]

/-- Does the object have `k` among its keys? -/
def kvsHasKey (k : List Char) : JsonKVs → Bool
  | JsonKVs.nil => false
  | JsonKVs.cons k' _ t => k' = k || kvsHasKey k t

/-- A document with the given top-level field. -/
def hasTopLevelKey (doc : Json) (k : List Char) : Bool :=
  match doc with
  | Json.obj kvs => kvsHasKey k kvs
  | _ => false

/-- First value stored under a key. -/
def kvsGet : JsonKVs → List Char → Option Json
  | JsonKVs.nil, _ => none
  | JsonKVs.cons k' v t, k => if k' = k then some v else kvsGet t k

mutual

/-- Fuel bound sufficient to parse a value (see `parse_dump`). -/
def sizeJ : Json → Nat
  | Json.null => 1
  | Json.bool _ => 1
  | Json.num _ => 1
  | Json.str s => 2 + s.length
  | Json.arr xs => 2 + sizeL xs
  | Json.obj kvs => 2 + sizeK kvs

def sizeL : JsonList → Nat
  | JsonList.nil => 1
  | JsonList.cons h t => 2 + sizeJ h + sizeL t

def sizeK : JsonKVs → Nat
  | JsonKVs.nil => 1
  | JsonKVs.cons k v t => 3 + k.length + sizeJ v + sizeK t

end

/-- The upper-case hexadecimal characters `f"{...:02X}"` can print. -/
def isUpperHexDigit (c : Char) : Bool :=
  ('0' ≤ c && c ≤ '9') || ('A' ≤ c && c ≤ 'F')

/-- The breaker object of the spec's concrete Kitchen scenario. -/
def kitchenBreaker : JsonKVs :=
  JsonKVs.cons "uid".data (Json.str "1234567890.1".data)
  (JsonKVs.cons "name".data (Json.str "Kitchen".data)
  (JsonKVs.cons "capacity".data (Json.num ⟨false, [7], [2], none⟩)
  (JsonKVs.cons "power".data (Json.num ⟨false, [1], [2], none⟩)
  (JsonKVs.cons "voltage".data (Json.num ⟨false, [1, 2, 0], [0], none⟩)
  (JsonKVs.cons "percentCommanded".data (Json.num ⟨false, [1, 0, 0], [], none⟩)
  JsonKVs.nil)))))

/-- The document of the spec's concrete Kitchen scenario:
`{"presentDemands": [{... "name": "Kitchen", ..., "percentCommanded": 100}]}`. -/
def kitchenDoc : Json :=
  Json.obj (JsonKVs.cons "presentDemands".data
    (Json.arr (JsonList.cons (Json.obj kitchenBreaker) JsonList.nil)) JsonKVs.nil)

/-! ## Helper lemmas -/

theorem charLe_iff {a b : Char} : a ≤ b ↔ a.toNat ≤ b.toNat := Iff.rfl

theorem charToNat_ofNat {n : Nat} (h : n < 0xd800) : (Char.ofNat n).toNat = n := by
  have hv : Nat.isValidChar n := Or.inl h
  rw [Char.ofNat, dif_pos hv]
  rfl

theorem charEq_ofNat {c : Char} : c = Char.ofNat c.toNat := (Char.ofNat_toNat c).symm

theorem isPyWs_false_of_hex {c : Char} {v : Nat}
    (h : hexDigitVal? c = some v) : isPyWs c = false := by
  cases hw : isPyWs c with
  | false => rfl
  | true =>
    exfalso
    simp only [isPyWs, Bool.or_eq_true, decide_eq_true_eq] at hw
    rcases hw with ((((rfl | rfl) | rfl) | rfl) | rfl) | rfl <;> simp [hexDigitVal?] at h

theorem hex_ne {c d : Char} {v : Nat} (h : hexDigitVal? c = some v)
    (hd : hexDigitVal? d = none) : c ≠ d := by
  intro e; subst e; rw [h] at hd; cases hd

theorem pyIntHex_two_hex {c1 c2 : Char} {v1 v2 : Nat}
    (h1 : hexDigitVal? c1 = some v1) (h2 : hexDigitVal? c2 = some v2) :
    pyIntHex [c1, c2] = some ((v1 * 16 + v2 : Nat) : Int) := by
  have w1 := isPyWs_false_of_hex h1
  have w2 := isPyWs_false_of_hex h2
  have n1p : c1 ≠ '+' := hex_ne h1 (by decide)
  have n1m : c1 ≠ '-' := hex_ne h1 (by decide)
  have n2x : c2 ≠ 'x' := hex_ne h2 (by decide)
  have n2X : c2 ≠ 'X' := hex_ne h2 (by decide)
  have n2u : c2 ≠ '_' := hex_ne h2 (by decide)
  simp only [pyIntHex, List.dropWhile, w1, w2, List.reverse_cons, List.reverse_nil,
    List.nil_append, List.cons_append, List.append_nil]
  simp only [if_neg n1p, if_neg n1m, pyIntHexNoSign]
  rw [if_neg (by rintro ⟨-, h | h⟩ <;> [exact n2x h; exact n2X h])]
  simp only [pyIntHexDigits, h1, hexDigitsCore, if_neg n2u, h2]
  rfl

theorem hexDigitsUpperAux_small {fuel n : Nat} (h : n < 16) :
    hexDigitsUpperAux fuel n = [hexUpper n] := by
  cases fuel with
  | zero => simp [hexDigitsUpperAux, Nat.mod_eq_of_lt h]
  | succ f => simp [hexDigitsUpperAux, h]

theorem hexDigitsUpper_two {v1 w : Nat} (h1 : 1 ≤ v1) (h2 : v1 < 16) (h3 : w < 16) :
    hexDigitsUpper (v1 * 16 + w) = [hexUpper v1, hexUpper w] := by
  obtain ⟨m, hm⟩ : ∃ m, v1 * 16 + w = m + 1 := ⟨v1 * 16 + w - 1, by omega⟩
  rw [hexDigitsUpper, hm, hexDigitsUpperAux, if_neg (by omega)]
  have e1 : (m + 1) / 16 = v1 := by omega
  have e2 : (m + 1) % 16 = w := by omega
  rw [e1, e2, hexDigitsUpperAux_small h2]
  rfl

theorem hexUpper_val {d : Nat} (h : d < 16) : hexDigitVal? (hexUpper d) = some d := by
  interval_cases d <;> decide

theorem hexUpper_of_val {c : Char} {v : Nat} (hu : isUpperHexDigit c = true)
    (hv : hexDigitVal? c = some v) : hexUpper v = c := by
  simp only [isUpperHexDigit, Bool.or_eq_true, Bool.and_eq_true, decide_eq_true_eq] at hu
  rcases hu with ⟨h1, h2⟩ | ⟨h1, h2⟩
  · have b1 : 48 ≤ c.toNat := charLe_iff.mp h1
    have b2 : c.toNat ≤ 57 := charLe_iff.mp h2
    rw [hexDigitVal?, if_pos ⟨h1, h2⟩] at hv
    obtain rfl : c.toNat - '0'.toNat = v := Option.some.inj hv
    have e0 : '0'.toNat = 48 := rfl
    rw [hexUpper, if_pos (by omega), show '0'.toNat + (c.toNat - '0'.toNat) = c.toNat by omega]
    exact (charEq_ofNat).symm
  · have b1 : 65 ≤ c.toNat := charLe_iff.mp h1
    have b2 : c.toNat ≤ 70 := charLe_iff.mp h2
    rw [hexDigitVal?,
      if_neg (by rintro ⟨-, hx⟩; have : c.toNat ≤ 57 := charLe_iff.mp hx; omega),
      if_neg (by rintro ⟨hx, -⟩; have : 97 ≤ c.toNat := charLe_iff.mp hx; omega),
      if_pos ⟨h1, h2⟩] at hv
    obtain rfl : c.toNat - 'A'.toNat + 10 = v := Option.some.inj hv
    have e0 : 'A'.toNat = 65 := rfl
    rw [hexUpper, if_neg (by omega),
      show 'A'.toNat + (c.toNat - 'A'.toNat + 10 - 10) = c.toNat by omega]
    exact (charEq_ofNat).symm

theorem beforeFirstDot_append (y : List Char) :
    beforeFirstDot (y ++ ['.', '1']) = beforeFirstDot y := by
  induction y with
  | nil => simp [beforeFirstDot, List.takeWhile]
  | cons c t ih =>
    by_cases hc : c = '.'
    · subst hc; simp [beforeFirstDot, List.takeWhile]
    · simp only [beforeFirstDot, List.cons_append, List.takeWhile_cons, decide_not] at ih ⊢
      simp [hc, ih]

theorem endsWith_dot1_append (y : List Char) :
    listEndsWith ['.', '1'] (y ++ ['.', '1']) = true := by
  simp only [listEndsWith, List.length_append, List.length_cons, List.length_nil]
  have : y.length + 2 - 2 = y.length := by omega
  rw [this, List.drop_left]
  simp

theorem hexVal_lt {c : Char} {v : Nat} (h : hexDigitVal? c = some v) : v < 16 := by
  rw [hexDigitVal?] at h
  split at h
  · next hc =>
    have h2 := charLe_iff.mp hc.2
    have e : '9'.toNat = 57 := rfl
    obtain rfl := Option.some.inj h
    have e0 : '0'.toNat = 48 := rfl
    omega
  · split at h
    · next hc =>
      have h2 := charLe_iff.mp hc.2
      have e : 'f'.toNat = 102 := rfl
      obtain rfl := Option.some.inj h
      have e0 : 'a'.toNat = 97 := rfl
      omega
    · split at h
      · next hc =>
        have h2 := charLe_iff.mp hc.2
        have e : 'F'.toNat = 70 := rfl
        obtain rfl := Option.some.inj h
        have e0 : 'A'.toNat = 65 := rfl
        omega
      · cases h

theorem pyHexFmt2_nat (n : Nat) :
    pyHexFmt2 (n : Int) =
      (if (hexDigitsUpper n).length < 2 then '0' :: hexDigitsUpper n
       else hexDigitsUpper n) := by
  rw [pyHexFmt2, if_neg (by omega)]
  simp

/-- The increment branch of `calculate_dmx_uid`, evaluated: when the two
characters before the end of the colon-formatted base are hex digits
with no carry out of the low nibble, only the last character changes. -/
theorem calcDmxChars_dot1 {y q : List Char} {c1 c2 : Char} {v1 v2 : Nat}
    (hy : listEndsWith ['.', '1'] y = false)
    (hq : colonFormat (beforeFirstDot y) = q ++ [c1, c2])
    (hu : isUpperHexDigit c1 = true)
    (h1 : hexDigitVal? c1 = some v1)
    (h2 : hexDigitVal? c2 = some v2)
    (hlt : v2 < 15) :
    calcDmxChars y = q ++ [c1, c2] ∧
    calcDmxChars (y ++ ['.', '1']) = q ++ [c1, hexUpper (v2 + 1)] := by
  constructor
  · simp [calcDmxChars, hy, hq]
  · have hb : colonFormat (beforeFirstDot (y ++ ['.', '1'])) = q ++ [c1, c2] := by
      rw [beforeFirstDot_append, hq]
    simp only [calcDmxChars, endsWith_dot1_append, if_true, hb]
    have hlen : (q ++ [c1, c2]).length = q.length + 2 := by simp
    have e1 : q.length + 2 - 2 = q.length := by omega
    rw [hlen, e1]
    have htake : (q ++ [c1, c2]).take q.length = q := List.take_left q [c1, c2]
    have hdrop : (q ++ [c1, c2]).drop q.length = [c1, c2] := List.drop_left q [c1, c2]
    have hinc : tryIncrement [c1, c2] = pyHexFmt2 (((v1 * 16 + v2 : Nat) : Int) + 1) := by
      rw [tryIncrement, pyIntHex_two_hex h1 h2]
    rw [htake, hdrop, hinc]
    have hv1 : v1 < 16 := hexVal_lt h1
    have hcast : ((v1 * 16 + v2 : Nat) : Int) + 1 = ((v1 * 16 + (v2 + 1) : Nat) : Int) := by
      push_cast; ring
    rw [hcast, pyHexFmt2_nat]
    rcases Nat.eq_zero_or_pos v1 with hz | hp
    · subst hz
      have hsm : 0 * 16 + (v2 + 1) = v2 + 1 := by omega
      rw [hsm, hexDigitsUpper, hexDigitsUpperAux_small (by omega)]
      simp only [List.length_cons, List.length_nil]
      rw [if_pos (by omega)]
      have hc1 : c1 = '0' := by
        have := hexUpper_of_val hu h1
        rw [show hexUpper 0 = '0' from rfl] at this
        exact this.symm
      rw [hc1]
    · rw [hexDigitsUpper_two hp hv1 (by omega)]
      simp only [List.length_cons, List.length_nil]
      rw [if_neg (by omega), hexUpper_of_val hu h1]

/-! ### Frame-builder lemmas (C1) -/

theorem foldlMax_ge_init (t : List (Int × String)) (i : Int) :
    i ≤ t.foldl (fun m q => max m q.1) i := by
  induction t generalizing i with
  | nil => exact le_refl i
  | cons p r ih => exact le_trans (le_max_left i p.1) (ih (max i p.1))

theorem foldlMax_ge_mem {t : List (Int × String)} {k : Int} (i : Int)
    (h : k ∈ alKeys t) : k ≤ t.foldl (fun m q => max m q.1) i := by
  induction t generalizing i with
  | nil => cases h
  | cons p r ih =>
    rcases (by simpa [alKeys] using h : k = p.1 ∨ k ∈ alKeys r) with rfl | hm
    · exact le_trans (le_max_right i p.1) (foldlMax_ge_init r (max i p.1))
    · exact ih (max i p.1) hm

theorem foldlMax_mem_or (t : List (Int × String)) (i : Int) :
    t.foldl (fun m q => max m q.1) i = i ∨
      t.foldl (fun m q => max m q.1) i ∈ alKeys t := by
  induction t generalizing i with
  | nil => exact Or.inl rfl
  | cons p r ih =>
    rcases ih (max i p.1) with h | h
    · rw [List.foldl_cons, h]
      rcases max_choice i p.1 with hm | hm
      · exact Or.inl hm
      · exact Or.inr (by simp [alKeys, hm])
    · exact Or.inr (by simp [alKeys]; right; simpa [alKeys] using h)

theorem pyMaxKeys_ge {l : List (Int × String)} {k : Int} (h : k ∈ alKeys l) :
    k ≤ pyMaxKeys l := by
  cases l with
  | nil => cases h
  | cons p t =>
    rcases (by simpa [alKeys] using h : k = p.1 ∨ k ∈ alKeys t) with rfl | hm
    · exact foldlMax_ge_init t p.1
    · exact foldlMax_ge_mem p.1 hm

theorem pyMaxKeys_mem {l : List (Int × String)} (h : l ≠ []) :
    pyMaxKeys l ∈ alKeys l := by
  cases l with
  | nil => exact absurd rfl h
  | cons p t =>
    rcases foldlMax_mem_or t p.1 with hm | hm
    · rw [pyMaxKeys, hm]; simp [alKeys]
    · rw [pyMaxKeys]; simp [alKeys]; right; simpa [alKeys] using hm

theorem alKeys_insert (l : List (Int × String)) (k : Int) (v : String) (x : Int) :
    x ∈ alKeys (alInsert l k v) ↔ x ∈ alKeys l ∨ x = k := by
  induction l with
  | nil => simp [alInsert, alKeys]
  | cons p t ih =>
    by_cases hp : p.1 = k
    · subst hp
      simp only [alInsert, if_pos rfl]
      simp [alKeys]
      tauto
    · simp only [alInsert, if_neg hp]
      simp [alKeys] at ih ⊢
      tauto

theorem alInsert_nodup {l : List (Int × String)} (k : Int) (v : String)
    (h : (alKeys l).Nodup) : (alKeys (alInsert l k v)).Nodup := by
  induction l with
  | nil => simp [alInsert, alKeys]
  | cons p t ih =>
    simp only [alKeys, List.map_cons, List.nodup_cons] at h
    by_cases hp : p.1 = k
    · subst hp
      simp only [alInsert, if_pos rfl]
      simpa [alKeys, List.nodup_cons] using h
    · simp only [alInsert, if_neg hp]
      simp only [alKeys, List.map_cons, List.nodup_cons]
      refine ⟨?_, ih h.2⟩
      intro hmem
      rcases (alKeys_insert t k v p.1).mp hmem with hmem' | rfl
      · exact h.1 hmem'
      · exact hp rfl

theorem alLookup_insert_self (l : List (Int × String)) (k : Int) (v : String) :
    alLookup (alInsert l k v) k = some v := by
  induction l with
  | nil => simp [alInsert, alLookup]
  | cons p t ih =>
    by_cases hp : p.1 = k
    · subst hp; simp [alInsert, alLookup]
    · simp [alInsert, alLookup, hp, ih]

theorem alLookup_insert_ne (l : List (Int × String)) {k k' : Int} (v : String)
    (h : k' ≠ k) : alLookup (alInsert l k v) k' = alLookup l k' := by
  induction l with
  | nil => simp [alInsert, alLookup, Ne.symm h]
  | cons p t ih =>
    by_cases hp : p.1 = k
    · rw [alInsert, if_pos hp, alLookup, alLookup, hp, if_neg (Ne.symm h),
        if_neg (Ne.symm h)]
    · rw [alInsert, if_neg hp, alLookup, alLookup]
      by_cases hpk : p.1 = k'
      · rw [if_pos hpk, if_pos hpk]
      · rw [if_neg hpk, if_neg hpk, ih]

theorem alLookup_eq_none {l : List (Int × String)} {k : Int}
    (h : k ∉ alKeys l) : alLookup l k = none := by
  induction l with
  | nil => rfl
  | cons p t ih =>
    simp only [alKeys, List.map_cons, List.mem_cons] at h
    push_neg at h
    rw [alLookup, if_neg (Ne.symm h.1)]
    exact ih (by simpa [alKeys] using h.2)

theorem alLookup_mem_keys {l : List (Int × String)} {k : Int} {v : String}
    (h : alLookup l k = some v) : k ∈ alKeys l := by
  induction l with
  | nil => cases h
  | cons p t ih =>
    rw [alLookup] at h
    by_cases hp : p.1 = k
    · simp [alKeys, hp]
    · rw [if_neg hp] at h
      simp [alKeys]
      right
      simpa [alKeys] using ih h

theorem foldSlots_length (cv : List (Int × String)) (maxC : Int) (arr : List String) :
    (cv.foldl (setChannelSlot maxC) arr).length = arr.length := by
  induction cv generalizing arr with
  | nil => rfl
  | cons p t ih =>
    rw [List.foldl_cons, ih]
    rw [setChannelSlot]
    split
    · rw [List.length_set]
    · rfl

theorem foldSlots_get_none : ∀ (cv : List (Int × String)) (maxC : Int)
    (arr : List String) {a : Int},
    (∀ p ∈ cv, 1 ≤ p.1) → a ∉ alKeys cv → 1 ≤ a →
    (cv.foldl (setChannelSlot maxC) arr).get? (a - 1).toNat =
      arr.get? (a - 1).toNat
  | [], _, _, _, _, _, _ => rfl
  | p :: t, maxC, arr, a, hpos, hna, ha => by
    have hsplit : ¬(a = p.1 ∨ a ∈ alKeys t) := fun hor => hna (List.mem_cons.mpr hor)
    push_neg at hsplit
    rw [List.foldl_cons,
      foldSlots_get_none t maxC _ (fun q hq => hpos q (List.mem_cons_of_mem p hq))
        hsplit.2 ha]
    simp only [setChannelSlot]
    split
    · next hcond =>
      have hk1 : 1 ≤ p.1 := hcond.1
      have hne : (p.1 - 1).toNat ≠ (a - 1).toNat := by
        intro e
        exact hsplit.1 (by omega)
      rw [List.get?_set_ne _ _ hne]
    · rfl

theorem foldSlots_get_some : ∀ (cv : List (Int × String)) (maxC : Int)
    (arr : List String) {a : Int} {v : String},
    (alKeys cv).Nodup → (∀ p ∈ cv, 1 ≤ p.1) → maxC.toNat ≤ arr.length →
    alLookup cv a = some v → 1 ≤ a → a ≤ maxC →
    (cv.foldl (setChannelSlot maxC) arr).get? (a - 1).toNat =
      some (if isOnValue v then "255" else "0")
  | [], _, _, _, _, _, _, _, hlk, _, _ => by cases hlk
  | p :: t, maxC, arr, a, v, hnd, hpos, hlen, hlk, ha1, ha2 => by
    have hnd' : p.1 ∉ alKeys t ∧ (alKeys t).Nodup := by
      rw [show alKeys (p :: t) = p.1 :: alKeys t from rfl, List.nodup_cons] at hnd
      exact hnd
    rw [alLookup] at hlk
    by_cases hp : p.1 = a
    · rw [if_pos hp] at hlk
      obtain rfl := Option.some.inj hlk
      rw [List.foldl_cons]
      have hset : setChannelSlot maxC arr p =
          arr.set (p.1 - 1).toNat (if isOnValue p.2 then "255" else "0") := by
        simp only [setChannelSlot]
        rw [if_pos ⟨by omega, by omega⟩]
      rw [hset,
        foldSlots_get_none t maxC _ (fun q hq => hpos q (List.mem_cons_of_mem p hq))
          (hp ▸ hnd'.1) ha1,
        hp, List.get?_set_eq_of_lt]
      omega
    · rw [if_neg hp] at hlk
      rw [List.foldl_cons]
      refine foldSlots_get_some t maxC _ hnd'.2
        (fun q hq => hpos q (List.mem_cons_of_mem p hq)) ?_ hlk ha1 ha2
      simp only [setChannelSlot]
      split
      · rw [List.length_set]; exact hlen
      · exact hlen

theorem alLookup_isSome_of_mem : ∀ {l : List (Int × String)} {k : Int},
    k ∈ alKeys l → ∃ v, alLookup l k = some v
  | [], _, h => absurd h (List.not_mem_nil _)
  | p :: t, k, h => by
    rw [alLookup]
    by_cases hp : p.1 = k
    · exact ⟨p.2, by rw [if_pos hp]⟩
    · rcases List.mem_cons.mp h with he | hm
      · exact absurd he.symm hp
      · rw [if_neg hp]
        exact alLookup_isSome_of_mem hm

/-- Shared core for C1: the dense array built from a nonempty merged
dict with distinct, positive keys. -/
theorem setDmxValueArray_spec (merged : List (Int × String))
    (hne : merged ≠ []) (hnd : (alKeys merged).Nodup)
    (hpos : ∀ k ∈ alKeys merged, 1 ≤ k) :
    ((setDmxValueArray merged).length : Int) = pyMaxKeys merged ∧
    (∀ a : Int, 1 ≤ a → a ≤ pyMaxKeys merged →
      (setDmxValueArray merged).get? (a - 1).toNat =
        some (match alLookup merged a with
              | some v => if isOnValue v then "255" else "0"
              | none => "0")) := by
  have hMmem : pyMaxKeys merged ∈ alKeys merged := pyMaxKeys_mem hne
  have hM1 : 1 ≤ pyMaxKeys merged := hpos _ hMmem
  have hpos' : ∀ p ∈ merged, 1 ≤ p.1 := by
    intro p hp
    exact hpos p.1 (List.mem_map_of_mem Prod.fst hp)
  have hlen : (setDmxValueArray merged).length = (pyMaxKeys merged).toNat := by
    rw [setDmxValueArray, foldSlots_length, List.length_replicate]
  constructor
  · rw [hlen]
    omega
  · intro a ha1 ha2
    cases hlk : alLookup merged a with
    | some v =>
      rw [setDmxValueArray]
      exact foldSlots_get_some merged (pyMaxKeys merged) _ hnd hpos'
        (by rw [List.length_replicate]) hlk ha1 ha2
    | none =>
      have hna : a ∉ alKeys merged := by
        intro hmem
        obtain ⟨v, hv⟩ := alLookup_isSome_of_mem hmem
        rw [hlk] at hv
        cases hv
      rw [setDmxValueArray, foldSlots_get_none merged (pyMaxKeys merged) _ hpos' hna ha1]
      simp only [List.get?_eq_getElem?, List.getElem?_replicate]
      rw [if_pos (by omega)]

/-! ### JSON printer/parser round trip -/

theorem charNe_of_toNat {a b : Char} (h : a.toNat ≠ b.toNat) : a ≠ b :=
  fun e => h (congrArg Char.toNat e)

theorem digitChar_toNat {d : Nat} (h : d < 10) : (digitChar d).toNat = 48 + d :=
  charToNat_ofNat (by omega)

theorem isDigitCh_iff {c : Char} : isDigitCh c = true ↔ 48 ≤ c.toNat ∧ c.toNat ≤ 57 := by
  rw [isDigitCh]
  simp only [Bool.and_eq_true, decide_eq_true_eq]
  exact and_congr charLe_iff charLe_iff

theorem isDigitCh_digitChar {d : Nat} (h : d < 10) : isDigitCh (digitChar d) = true :=
  isDigitCh_iff.mpr (by rw [digitChar_toNat h]; omega)

theorem digitVal_digitChar {d : Nat} (h : d < 10) : digitVal (digitChar d) = d := by
  rw [digitVal, digitChar_toNat h]
  omega

theorem digitChar_ne {d : Nat} (h : d < 10) {c : Char} (hc : 48 ≤ c.toNat → 58 ≤ c.toNat) :
    digitChar d ≠ c := by
  refine charNe_of_toNat ?_
  rw [digitChar_toNat h]
  intro e
  omega

theorem wfDigits_cons {d : Nat} {ds : List Nat} :
    wfDigits (d :: ds) = true ↔ d < 10 ∧ wfDigits ds = true := by
  simp [wfDigits]

/-- Maximal digit run over printed digits followed by a non-digit. -/
theorem takeDrop_digits {ds : List Nat} (hds : wfDigits ds = true) {rest : List Char}
    (hrest : ∀ c ∈ rest.head?, isDigitCh c = false) :
    (digitsChars ds ++ rest).takeWhile isDigitCh = digitsChars ds ∧
    (digitsChars ds ++ rest).dropWhile isDigitCh = rest := by
  induction ds with
  | nil =>
    simp only [digitsChars, List.map_nil, List.nil_append]
    cases rest with
    | nil => exact ⟨rfl, rfl⟩
    | cons c t =>
      have hc : isDigitCh c = false := hrest c rfl
      rw [List.takeWhile_cons, List.dropWhile_cons, hc]
      constructor <;> simp
  | cons d ds ih =>
    obtain ⟨hd, hds'⟩ := wfDigits_cons.mp hds
    obtain ⟨iht, ihd⟩ := ih hds'
    simp only [digitsChars, List.map_cons, List.cons_append] at iht ihd ⊢
    rw [List.takeWhile_cons, List.dropWhile_cons, isDigitCh_digitChar hd]
    simp only [if_true, iht, ihd]
    constructor <;> simp

theorem map_digitVal {ds : List Nat} (hds : wfDigits ds = true) :
    (digitsChars ds).map digitVal = ds := by
  induction ds with
  | nil => rfl
  | cons d t ih =>
    obtain ⟨hd, ht⟩ := wfDigits_cons.mp hds
    simp only [digitsChars, List.map_cons] at ih ⊢
    rw [digitVal_digitChar hd, ih ht]

theorem digitsChars_cons (d : Nat) (ds : List Nat) :
    digitsChars (d :: ds) = digitChar d :: digitsChars ds := rfl

theorem digitsChars_ne_nil {ds : List Nat} (h : ds ≠ []) : digitsChars ds ≠ [] := by
  cases ds with
  | nil => exact absurd rfl h
  | cons d t => simp [digitsChars]

theorem parseExpPart_exp {ep : Option (Bool × List Nat)} (hep : wfEp ep = true)
    {rest : List Char} (hrest : ∀ c ∈ rest.head?, isDigitCh c = false ∧ c ≠ 'e' ∧ c ≠ 'E') :
    parseExpPart (expChars ep ++ rest) = (ep, rest) := by
  cases ep with
  | none =>
    rw [expChars, List.nil_append]
    cases rest with
    | nil => rfl
    | cons c t =>
      obtain ⟨-, hce, hcE⟩ := hrest c rfl
      rw [parseExpPart, if_neg (by rintro (h | h) <;> [exact hce h; exact hcE h])]
  | some p =>
    obtain ⟨sg, ds⟩ := p
    rw [wfEp, Bool.and_eq_true, decide_eq_true_eq] at hep
    obtain ⟨hds0, hdsd⟩ := hep
    obtain ⟨ht, hd⟩ := takeDrop_digits hdsd (fun c hc => (hrest c hc).1)
    cases sg
    · have he : expChars (some (false, ds)) ++ rest =
          'e' :: '+' :: (digitsChars ds ++ rest) := by
        simp [expChars]
      rw [he, parseExpPart, if_pos (Or.inl rfl)]
      have hs : expSign ('+' :: (digitsChars ds ++ rest)) =
          (false, digitsChars ds ++ rest) := by
        rw [expSign, if_pos rfl]
      simp only [hs, ht, hd]
      rw [if_neg (digitsChars_ne_nil hds0), map_digitVal hdsd]
    · have he : expChars (some (true, ds)) ++ rest =
          'e' :: '-' :: (digitsChars ds ++ rest) := by
        simp [expChars]
      rw [he, parseExpPart, if_pos (Or.inl rfl)]
      have hs : expSign ('-' :: (digitsChars ds ++ rest)) =
          (true, digitsChars ds ++ rest) := by
        rw [expSign, if_neg (by decide), if_pos rfl]
      simp only [hs, ht, hd]
      rw [if_neg (digitsChars_ne_nil hds0), map_digitVal hdsd]

theorem expChars_head {ep : Option (Bool × List Nat)} {rest : List Char}
    (hrest : ∀ c ∈ rest.head?, isDigitCh c = false ∧ c ≠ '.') :
    ∀ c ∈ (expChars ep ++ rest).head?, isDigitCh c = false ∧ c ≠ '.' := by
  cases ep with
  | none =>
    rw [expChars, List.nil_append]
    exact hrest
  | some p =>
    obtain ⟨sg, ds⟩ := p
    rw [expChars, List.cons_append]
    intro c hc
    simp only [List.head?_cons, Option.mem_def, Option.some.injEq] at hc
    subst hc
    exact ⟨by decide, by decide⟩

theorem parseFrac_frac {fp : List Nat} (hfp : wfDigits fp = true)
    {next : List Char} (hnext : ∀ c ∈ next.head?, isDigitCh c = false ∧ c ≠ '.') :
    parseFrac (fracChars fp ++ next) = (fp, next) := by
  by_cases h0 : fp = []
  · subst h0
    rw [fracChars, if_pos rfl, List.nil_append]
    cases next with
    | nil => rfl
    | cons c t =>
      obtain ⟨-, hcd⟩ := hnext c rfl
      rw [parseFrac, if_neg hcd]
  · rw [fracChars, if_neg h0, List.cons_append, parseFrac, if_pos rfl]
    obtain ⟨ht, hd⟩ := takeDrop_digits hfp (fun c hc => (hnext c hc).1)
    simp only [ht, hd]
    rw [if_neg (digitsChars_ne_nil h0), map_digitVal hfp]

theorem fracChars_head {fp : List Nat} {next : List Char}
    (hnext : ∀ c ∈ next.head?, isDigitCh c = false) :
    ∀ c ∈ (fracChars fp ++ next).head?, isDigitCh c = false := by
  by_cases h0 : fp = []
  · subst h0
    rw [fracChars, if_pos rfl, List.nil_append]
    exact hnext
  · rw [fracChars, if_neg h0, List.cons_append]
    intro c hc
    simp only [List.head?_cons, Option.mem_def, Option.some.injEq] at hc
    subst hc
    decide

/-- Number round trip: the parser reads back exactly the literal the
printer emitted, when the next character cannot extend the number. -/
theorem parseJNum_print (n : JNum) (hn : wfJNum n = true) (rest : List Char)
    (hrest : ∀ c ∈ rest.head?,
      isDigitCh c = false ∧ c ≠ '.' ∧ c ≠ 'e' ∧ c ≠ 'E') :
    parseJNum (printJNum n ++ rest) = some (n, rest) := by
  obtain ⟨neg, ip, fp, ep⟩ := n
  rw [wfJNum] at hn
  simp only [Bool.and_eq_true, Bool.or_eq_true, decide_eq_true_eq] at hn
  obtain ⟨⟨⟨⟨hip0, hipd⟩, hlead⟩, hfpd⟩, hepd⟩ := hn
  have hexp : parseExpPart (expChars ep ++ rest) = (ep, rest) :=
    parseExpPart_exp hepd (fun c hc =>
      ⟨(hrest c hc).1, (hrest c hc).2.2.1, (hrest c hc).2.2.2⟩)
  have hheadE : ∀ c ∈ (expChars ep ++ rest).head?, isDigitCh c = false ∧ c ≠ '.' :=
    expChars_head (fun c hc => ⟨(hrest c hc).1, (hrest c hc).2.1⟩)
  have hfrac : parseFrac (fracChars fp ++ (expChars ep ++ rest)) =
      (fp, expChars ep ++ rest) := parseFrac_frac hfpd hheadE
  have hheadF : ∀ c ∈ (fracChars fp ++ (expChars ep ++ rest)).head?,
      isDigitCh c = false := fracChars_head (fun c hc => (hheadE c hc).1)
  -- the core after the optional minus sign
  have hint : parseJNumBody neg
      (digitsChars ip ++ (fracChars fp ++ (expChars ep ++ rest))) =
      some (JNum.mk neg ip fp ep, rest) := by
    rcases hlead with hip1 | hnz
    · subst hip1
      simp only [digitsChars, List.map_cons, List.map_nil, List.cons_append,
        List.nil_append]
      rw [parseJNumBody, if_pos (show digitChar 0 = '0' from rfl)]
      simp only [hfrac, hexp]
    · cases ip with
      | nil => exact absurd rfl hip0
      | cons d dt =>
        obtain ⟨hd, hdt⟩ := wfDigits_cons.mp hipd
        have hne0 : d ≠ 0 := fun e => hnz (by simp [List.head?, e])
        rw [digitsChars_cons, List.cons_append, parseJNumBody,
          if_neg (charNe_of_toNat (by
            rw [digitChar_toNat hd]
            have e0 : '0'.toNat = 48 := rfl
            intro e
            omega)),
          if_pos (isDigitCh_digitChar hd)]
        obtain ⟨ht, hdw⟩ := takeDrop_digits hdt hheadF
        simp only [ht, hdw, hfrac, hexp]
        rw [digitVal_digitChar hd, map_digitVal hdt]
  cases neg
  · cases hipv : ip with
    | nil => exact absurd hipv hip0
    | cons d dt =>
      have hd : d < 10 := (wfDigits_cons.mp (hipv ▸ hipd)).1
      have hne : printJNum ⟨false, d :: dt, fp, ep⟩ ++ rest =
          digitsChars (d :: dt) ++ (fracChars fp ++ (expChars ep ++ rest)) := by
        simp [printJNum, List.append_assoc]
      rw [hne, digitsChars_cons, List.cons_append, parseJNum,
        if_neg (charNe_of_toNat (by
          rw [digitChar_toNat hd]
          have e0 : '-'.toNat = 45 := rfl
          intro e
          omega))]
      have := hint
      rw [hipv, digitsChars_cons, List.cons_append] at this
      exact this
  · have hne : printJNum ⟨true, ip, fp, ep⟩ ++ rest =
        '-' :: (digitsChars ip ++ (fracChars fp ++ (expChars ep ++ rest))) := by
      simp [printJNum, List.append_assoc]
    rw [hne, parseJNum, if_pos rfl]
    exact hint

theorem charValid (c : Char) :
    c.toNat < 0xd800 ∨ (0xe000 ≤ c.toNat ∧ c.toNat < 0x110000) := by
  have h := c.valid
  rcases h with h | ⟨h1, h2⟩
  · exact Or.inl h
  · exact Or.inr ⟨h1, h2⟩

theorem hexLower_val {d : Nat} (h : d < 16) : hexDigitVal? (hexLower d) = some d := by
  interval_cases d <;> decide

theorem parseHex4_toHex4 {n : Nat} (h : n < 0x10000) (rest : List Char) :
    parseHex4 (toHex4 n ++ rest) = some (n, rest) := by
  have h1 : n / 4096 % 16 < 16 := Nat.mod_lt _ (by omega)
  have h2 : n / 256 % 16 < 16 := Nat.mod_lt _ (by omega)
  have h3 : n / 16 % 16 < 16 := Nat.mod_lt _ (by omega)
  have h4 : n % 16 < 16 := Nat.mod_lt _ (by omega)
  rw [toHex4, show
    ([hexLower (n / 4096 % 16), hexLower (n / 256 % 16),
      hexLower (n / 16 % 16), hexLower (n % 16)] ++ rest) =
    hexLower (n / 4096 % 16) :: hexLower (n / 256 % 16) ::
      hexLower (n / 16 % 16) :: hexLower (n % 16) :: rest from rfl,
    parseHex4, hexLower_val h1, hexLower_val h2, hexLower_val h3, hexLower_val h4]
  have he : n / 4096 % 16 * 4096 + n / 256 % 16 * 256 + n / 16 % 16 * 16 + n % 16 = n := by
    omega
  show some (n / 4096 % 16 * 4096 + n / 256 % 16 * 256 + n / 16 % 16 * 16 + n % 16, rest) =
    some (n, rest)
  rw [he]

theorem escString_cons (c : Char) (t : List Char) :
    escString (c :: t) = escChar c ++ escString t := rfl

theorem parseJString_cons (fuel : Nat) (c : Char) (t : List Char) :
    parseJString (fuel + 1) (c :: t) =
      (if c = '"' then some ([], t)
       else if c = '\\' then
        match t with
        | [] => none
        | e :: t2 =>
          match escCode? e with
          | some ch =>
            (parseJString fuel t2).map (fun p => (ch :: p.1, p.2))
          | none =>
            if e = 'u' then
              match parseHex4 t2 with
              | none => none
              | some (h, t3) =>
                if 0xd800 ≤ h ∧ h ≤ 0xdbff then
                  match t3 with
                  | a :: b :: t4 =>
                    if a = '\\' ∧ b = 'u' then
                      match parseHex4 t4 with
                      | none => none
                      | some (lo, t5) =>
                        if 0xdc00 ≤ lo ∧ lo ≤ 0xdfff then
                          (parseJString fuel t5).map (fun p =>
                            (Char.ofNat (0x10000 + (h - 0xd800) * 0x400 + (lo - 0xdc00)) :: p.1, p.2))
                        else none
                    else none
                  | _ => none
                else if 0xdc00 ≤ h ∧ h ≤ 0xdfff then none
                else (parseJString fuel t3).map (fun p => (Char.ofNat h :: p.1, p.2))
            else none
       else if c.toNat < 0x20 then none
       else (parseJString fuel t).map (fun p => (c :: p.1, p.2))) := rfl

/-- String-escape round trip: reading back an escaped string body. -/
theorem parseJString_esc : ∀ (s : List Char) (fuel : Nat), s.length + 1 ≤ fuel →
    ∀ rest, parseJString fuel (escString s ++ '"' :: rest) = some (s, rest)
  | [], fuel, hf, rest => by
    obtain ⟨f, rfl⟩ : ∃ f, fuel = f + 1 := ⟨fuel - 1, by omega⟩
    rw [show escString [] ++ '"' :: rest = '"' :: rest from rfl, parseJString_cons,
      if_pos rfl]
  | c :: t, fuel, hf, rest => by
    obtain ⟨f, rfl⟩ : ∃ f, fuel = f + 1 := ⟨fuel - 1, by omega⟩
    have hft : t.length + 1 ≤ f := by
      simp only [List.length_cons] at hf
      omega
    have ih := parseJString_esc t f hft rest
    rw [escString_cons, List.append_assoc]
    by_cases hbs : c = '\\'
    · subst hbs
      rw [show escChar '\\' = ['\\', '\\'] from rfl]
      rw [show (['\\', '\\'] : List Char) ++ (escString t ++ '"' :: rest) =
        '\\' :: '\\' :: (escString t ++ '"' :: rest) from rfl, parseJString_cons,
        if_neg (by decide), if_pos rfl]
      dsimp only
      rw [show escCode? '\\' = some '\\' from rfl]
      dsimp only
      rw [ih]
      rfl
    · by_cases hq : c = '"'
      · subst hq
        rw [show escChar '"' = ['\\', '"'] from rfl]
        rw [show (['\\', '"'] : List Char) ++ (escString t ++ '"' :: rest) =
          '\\' :: '"' :: (escString t ++ '"' :: rest) from rfl, parseJString_cons,
          if_neg (by decide), if_pos rfl]
        dsimp only
        rw [show escCode? '"' = some '"' from rfl]
        dsimp only
        rw [ih]
        rfl
      · by_cases hb8 : c = '\x08'
        · subst hb8
          rw [show escChar '\x08' = ['\\', 'b'] from rfl]
          rw [show (['\\', 'b'] : List Char) ++ (escString t ++ '"' :: rest) =
            '\\' :: 'b' :: (escString t ++ '"' :: rest) from rfl, parseJString_cons,
            if_neg (by decide), if_pos rfl]
          dsimp only
          rw [show escCode? 'b' = some '\x08' from rfl]
          dsimp only
          rw [ih]
          rfl
        · by_cases hfc : c = '\x0c'
          · subst hfc
            rw [show escChar '\x0c' = ['\\', 'f'] from rfl]
            rw [show (['\\', 'f'] : List Char) ++ (escString t ++ '"' :: rest) =
              '\\' :: 'f' :: (escString t ++ '"' :: rest) from rfl, parseJString_cons,
              if_neg (by decide), if_pos rfl]
            dsimp only
            rw [show escCode? 'f' = some '\x0c' from rfl]
            dsimp only
            rw [ih]
            rfl
          · by_cases hnl : c = '\n'
            · subst hnl
              rw [show escChar '\n' = ['\\', 'n'] from rfl]
              rw [show (['\\', 'n'] : List Char) ++ (escString t ++ '"' :: rest) =
                '\\' :: 'n' :: (escString t ++ '"' :: rest) from rfl, parseJString_cons,
                if_neg (by decide), if_pos rfl]
              dsimp only
              rw [show escCode? 'n' = some '\n' from rfl]
              dsimp only
              rw [ih]
              rfl
            · by_cases hcr : c = '\r'
              · subst hcr
                rw [show escChar '\r' = ['\\', 'r'] from rfl]
                rw [show (['\\', 'r'] : List Char) ++ (escString t ++ '"' :: rest) =
                  '\\' :: 'r' :: (escString t ++ '"' :: rest) from rfl, parseJString_cons,
                  if_neg (by decide), if_pos rfl]
                dsimp only
                rw [show escCode? 'r' = some '\r' from rfl]
                dsimp only
                rw [ih]
                rfl
              · by_cases htb : c = '\t'
                · subst htb
                  rw [show escChar '\t' = ['\\', 't'] from rfl]
                  rw [show (['\\', 't'] : List Char) ++ (escString t ++ '"' :: rest) =
                    '\\' :: 't' :: (escString t ++ '"' :: rest) from rfl, parseJString_cons,
                    if_neg (by decide), if_pos rfl]
                  dsimp only
                  rw [show escCode? 't' = some '\t' from rfl]
                  dsimp only
                  rw [ih]
                  rfl
                · by_cases hpr : 0x20 ≤ c.toNat ∧ c.toNat ≤ 0x7e
                  · have hesc : escChar c = [c] := by
                      rw [escChar, if_neg hbs, if_neg hq, if_neg hb8, if_neg hfc,
                        if_neg hnl, if_neg hcr, if_neg htb, if_pos hpr]
                    rw [hesc, show ([c] : List Char) ++ (escString t ++ '"' :: rest) =
                      c :: (escString t ++ '"' :: rest) from rfl, parseJString_cons,
                      if_neg hq, if_neg hbs, if_neg (by omega : ¬c.toNat < 0x20), ih]
                    rfl
                  · by_cases hbmp : c.toNat < 0x10000
                    · have hesc : escChar c = '\\' :: 'u' :: toHex4 c.toNat := by
                        rw [escChar, if_neg hbs, if_neg hq, if_neg hb8, if_neg hfc,
                          if_neg hnl, if_neg hcr, if_neg htb, if_neg hpr, if_pos hbmp]
                      have hval := charValid c
                      rw [hesc, show ('\\' :: 'u' :: toHex4 c.toNat) ++
                          (escString t ++ '"' :: rest) =
                          '\\' :: 'u' :: (toHex4 c.toNat ++ (escString t ++ '"' :: rest))
                        from by simp, parseJString_cons,
                        if_neg (by decide), if_pos rfl]
                      dsimp only
                      rw [show escCode? 'u' = none from rfl]
                      dsimp only
                      rw [if_pos rfl]
                      rw [parseHex4_toHex4 hbmp]
                      dsimp only
                      rw [if_neg (by omega : ¬(0xd800 ≤ c.toNat ∧ c.toNat ≤ 0xdbff)),
                        if_neg (by omega : ¬(0xdc00 ≤ c.toNat ∧ c.toNat ≤ 0xdfff)),
                        ih, Char.ofNat_toNat]
                      rfl
                    · have hesc : escChar c =
                          '\\' :: 'u' :: toHex4 (0xd800 + (c.toNat - 0x10000) / 0x400) ++
                          '\\' :: 'u' :: toHex4 (0xdc00 + (c.toNat - 0x10000) % 0x400) := by
                        rw [escChar, if_neg hbs, if_neg hq, if_neg hb8, if_neg hfc,
                          if_neg hnl, if_neg hcr, if_neg htb, if_neg hpr, if_neg hbmp]
                      have hval := charValid c
                      have hcle : c.toNat < 0x110000 := by omega
                      have hhi : 0xd800 + (c.toNat - 0x10000) / 0x400 < 0x10000 := by omega
                      have hlo : 0xdc00 + (c.toNat - 0x10000) % 0x400 < 0x10000 := by omega
                      rw [hesc, show
                          ('\\' :: 'u' :: toHex4 (0xd800 + (c.toNat - 0x10000) / 0x400) ++
                            '\\' :: 'u' :: toHex4 (0xdc00 + (c.toNat - 0x10000) % 0x400)) ++
                            (escString t ++ '"' :: rest) =
                          '\\' :: 'u' ::
                            (toHex4 (0xd800 + (c.toNat - 0x10000) / 0x400) ++
                              ('\\' :: 'u' ::
                                (toHex4 (0xdc00 + (c.toNat - 0x10000) % 0x400) ++
                                  (escString t ++ '"' :: rest))))
                        from by simp, parseJString_cons,
                        if_neg (by decide), if_pos rfl]
                      dsimp only
                      rw [show escCode? 'u' = none from rfl]
                      dsimp only
                      rw [if_pos rfl]
                      rw [parseHex4_toHex4 hhi]
                      dsimp only
                      rw [if_pos (by omega :
                          0xd800 ≤ 0xd800 + (c.toNat - 0x10000) / 0x400 ∧
                          0xd800 + (c.toNat - 0x10000) / 0x400 ≤ 0xdbff)]
                      rw [if_pos ⟨rfl, rfl⟩]
                      rw [parseHex4_toHex4 hlo]
                      dsimp only
                      rw [if_pos (by omega :
                          0xdc00 ≤ 0xdc00 + (c.toNat - 0x10000) % 0x400 ∧
                          0xdc00 + (c.toNat - 0x10000) % 0x400 ≤ 0xdfff),
                        ih]
                      have hc : 0x10000 +
                          (0xd800 + (c.toNat - 0x10000) / 0x400 - 0xd800) * 0x400 +
                          (0xdc00 + (c.toNat - 0x10000) % 0x400 - 0xdc00) = c.toNat := by
                        omega
                      rw [hc, Char.ofNat_toNat]
                      rfl


/-! ### Whitespace-skipping and head-character facts -/

theorem skipWs_cons_nws {c : Char} (h : isJsonWs c = false) (t : List Char) :
    skipWs (c :: t) = c :: t := by
  simp [skipWs, List.dropWhile_cons, h]

theorem skipWs_space (t : List Char) : skipWs (' ' :: t) = skipWs t := by
  simp [skipWs, List.dropWhile_cons, isJsonWs]

theorem isJsonWs_false_of_toNat {c : Char} (h32 : c.toNat ≠ 32) (h9 : c.toNat ≠ 9)
    (h10 : c.toNat ≠ 10) (h13 : c.toNat ≠ 13) : isJsonWs c = false := by
  rw [isJsonWs, decide_eq_false (charNe_of_toNat h32), decide_eq_false (charNe_of_toNat h9),
    decide_eq_false (charNe_of_toNat h10), decide_eq_false (charNe_of_toNat h13)]
  rfl

/-- A character that may legally follow a printed value inside a larger
document cannot extend a number literal. -/
theorem followBoundary {c : Char} (h : c = ',' ∨ c = ']' ∨ c = '}') :
    isDigitCh c = false ∧ c ≠ '.' ∧ c ≠ 'e' ∧ c ≠ 'E' := by
  rcases h with h | h | h <;> subst h <;>
    exact ⟨by decide, by decide, by decide, by decide⟩

/-- A printed number starts with `'-'` or a digit. -/
theorem printJNum_head (n : JNum) (hn : wfJNum n = true) :
    ∃ c cs, printJNum n = c :: cs ∧ (c.toNat = 45 ∨ (48 ≤ c.toNat ∧ c.toNat ≤ 57)) := by
  obtain ⟨neg, ip, fp, ep⟩ := n
  rw [wfJNum] at hn
  simp only [Bool.and_eq_true, decide_eq_true_eq] at hn
  obtain ⟨⟨⟨⟨hip0, hipd⟩, -⟩, -⟩, -⟩ := hn
  cases neg
  · cases hip : ip with
    | nil => exact absurd hip hip0
    | cons d dt =>
      subst hip
      have hd : d < 10 := (wfDigits_cons.mp hipd).1
      exact ⟨digitChar d, digitsChars dt ++ (fracChars fp ++ expChars ep),
        by simp [printJNum, digitsChars], Or.inr (by rw [digitChar_toNat hd]; omega)⟩
  · exact ⟨'-', digitsChars ip ++ (fracChars fp ++ expChars ep),
      by simp [printJNum], Or.inl rfl⟩

/-- A printed value starts with a character that is not JSON whitespace
and not a structural closer or separator. -/
theorem dumpJson_head (v : Json) (hv : wfJson v = true) :
    ∃ c cs, dumpJson v = c :: cs ∧ isJsonWs c = false ∧ c ≠ ']' ∧ c ≠ '}' ∧ c ≠ ',' := by
  cases v with
  | null => exact ⟨'n', _, rfl, by decide, by decide, by decide, by decide⟩
  | bool b =>
    cases b
    · exact ⟨'f', _, rfl, by decide, by decide, by decide, by decide⟩
    · exact ⟨'t', _, rfl, by decide, by decide, by decide, by decide⟩
  | num n =>
    rw [wfJson] at hv
    obtain ⟨c, cs, hc, hcls⟩ := printJNum_head n hv
    exact ⟨c, cs, hc,
      isJsonWs_false_of_toNat (by omega) (by omega) (by omega) (by omega),
      charNe_of_toNat (show c.toNat ≠ 93 by omega),
      charNe_of_toNat (show c.toNat ≠ 125 by omega),
      charNe_of_toNat (show c.toNat ≠ 44 by omega)⟩
  | str s =>
    exact ⟨'"', escString s ++ ['"'], rfl, by decide, by decide, by decide, by decide⟩
  | arr xs => exact ⟨'[', dumpArrBody xs, rfl, by decide, by decide, by decide, by decide⟩
  | obj kvs => exact ⟨'{', dumpObjBody kvs, rfl, by decide, by decide, by decide, by decide⟩

/-- What follows an array element is `','` (more elements) or `']'`. -/
theorem dumpArrSep_follow (xs : JsonList) (rest : List Char) :
    ∀ c ∈ (dumpArrSep xs ++ rest).head?, c = ',' ∨ c = ']' ∨ c = '}' := by
  cases xs <;> intro c hc <;>
    simp only [dumpArrSep, List.cons_append, List.singleton_append, List.head?_cons,
      Option.mem_def, Option.some.injEq] at hc <;> subst hc
  · exact Or.inr (Or.inl rfl)
  · exact Or.inl rfl

/-- What follows an object member is `','` (more members) or `'}'`. -/
theorem dumpObjSep_follow (kvs : JsonKVs) (rest : List Char) :
    ∀ c ∈ (dumpObjSep kvs ++ rest).head?, c = ',' ∨ c = ']' ∨ c = '}' := by
  cases kvs <;> intro c hc <;>
    simp only [dumpObjSep, List.cons_append, List.singleton_append, List.head?_cons,
      Option.mem_def, Option.some.injEq] at hc <;> subst hc
  · exact Or.inr (Or.inr rfl)
  · exact Or.inl rfl

/-! ### Size measures versus printed length -/

theorem sizeJ_pos (v : Json) : 1 ≤ sizeJ v := by
  cases v <;> simp only [sizeJ] <;> omega

theorem escChar_length_pos (c : Char) : 1 ≤ (escChar c).length := by
  rw [escChar]
  repeat' split
  all_goals simp [toHex4]

theorem escString_length_ge (s : List Char) : s.length ≤ (escString s).length := by
  induction s with
  | nil => simp [escString]
  | cons c t ih =>
    rw [escString_cons, List.length_append, List.length_cons]
    have := escChar_length_pos c
    omega

mutual

theorem sizeJ_le : ∀ (v : Json), wfJson v = true → sizeJ v ≤ 3 * (dumpJson v).length
  | Json.null, _ => by decide
  | Json.bool b, _ => by cases b <;> decide
  | Json.num n, h => by
    rw [wfJson] at h
    obtain ⟨c, cs, hc, -⟩ := printJNum_head n h
    simp only [sizeJ, dumpJson, hc, List.length_cons]
    omega
  | Json.str s, _ => by
    have he := escString_length_ge s
    simp only [sizeJ, dumpJson, dumpStr, List.length_append, List.length_cons,
      List.length_singleton]
    omega
  | Json.arr JsonList.nil, _ => by decide
  | Json.arr (JsonList.cons hd tl), h => by
    rw [wfJson, wfJsonList, Bool.and_eq_true] at h
    obtain ⟨h1, h2⟩ := h
    have ha := sizeJ_le hd h1
    have hb := sizeL_le tl h2
    simp only [sizeJ, sizeL, dumpJson, dumpArrBody, List.length_cons, List.length_append]
    omega
  | Json.obj JsonKVs.nil, _ => by decide
  | Json.obj (JsonKVs.cons k v tl), h => by
    rw [wfJson, Bool.and_eq_true] at h
    obtain ⟨-, h2⟩ := h
    rw [wfJsonKVs, Bool.and_eq_true] at h2
    obtain ⟨h3, h4⟩ := h2
    have ha := sizeJ_le v h3
    have hb := sizeK_le tl h4
    have he := escString_length_ge k
    simp only [sizeJ, sizeK, dumpJson, dumpObjBody, dumpStr, List.length_cons,
      List.length_append, List.length_singleton]
    omega

theorem sizeL_le : ∀ (xs : JsonList), wfJsonList xs = true →
    sizeL xs + 2 ≤ 3 * (dumpArrSep xs).length
  | JsonList.nil, _ => by decide
  | JsonList.cons hd tl, h => by
    rw [wfJsonList, Bool.and_eq_true] at h
    obtain ⟨h1, h2⟩ := h
    have ha := sizeJ_le hd h1
    have hb := sizeL_le tl h2
    simp only [sizeL, dumpArrSep, List.length_cons, List.length_append]
    omega

theorem sizeK_le : ∀ (kvs : JsonKVs), wfJsonKVs kvs = true →
    sizeK kvs + 2 ≤ 3 * (dumpObjSep kvs).length
  | JsonKVs.nil, _ => by decide
  | JsonKVs.cons k v tl, h => by
    rw [wfJsonKVs, Bool.and_eq_true] at h
    obtain ⟨h1, h2⟩ := h
    have ha := sizeJ_le v h1
    have hb := sizeK_le tl h2
    have he := escString_length_ge k
    simp only [sizeK, dumpObjSep, dumpStr, List.length_cons, List.length_append,
      List.length_singleton]
    omega

end


/-! ### The printer–parser round trip -/

/-- Round trip, all three syntactic classes at once: with fuel at least
the size measure, the reader consumes exactly the printed text and
returns the printed value, leaving any follower whose first character
cannot extend a number literal. -/
theorem parse_dump_all : ∀ fuel : Nat,
    (∀ v rest, wfJson v = true → sizeJ v ≤ fuel →
      (∀ c ∈ rest.head?, c = ',' ∨ c = ']' ∨ c = '}') →
      parseValue fuel (dumpJson v ++ rest) = some (v, rest)) ∧
    (∀ xs rest, wfJsonList xs = true → sizeL xs + 1 ≤ fuel →
      (∀ c ∈ rest.head?, c = ',' ∨ c = ']' ∨ c = '}') →
      parseArrRest fuel (dumpArrSep xs ++ rest) = some (xs, rest)) ∧
    (∀ kvs rest, wfJsonKVs kvs = true → sizeK kvs + 1 ≤ fuel →
      (∀ c ∈ rest.head?, c = ',' ∨ c = ']' ∨ c = '}') →
      parseObjRest fuel (dumpObjSep kvs ++ rest) = some (kvs, rest)) := by
  intro fuel
  induction fuel using Nat.strong_induction_on with
  | _ fuel ih =>
  match fuel with
  | 0 =>
    refine ⟨fun v rest hv hs _ => ?_, fun xs rest _ hs _ => ?_, fun kvs rest _ hs _ => ?_⟩
    · have := sizeJ_pos v
      omega
    · omega
    · omega
  | f + 1 =>
    refine ⟨?_, ?_, ?_⟩
    · -- parseValue over dumpJson
      intro v rest hv hs hrest
      cases v with
      | null =>
        rw [show dumpJson Json.null ++ rest = 'n' :: 'u' :: 'l' :: 'l' :: rest from rfl,
          parseValue, if_neg (by decide), if_neg (by decide), if_neg (by decide),
          if_pos rfl, lit3, if_pos ⟨rfl, rfl, rfl⟩]
      | bool b =>
        cases b
        · rw [show dumpJson (Json.bool false) ++ rest =
            'f' :: 'a' :: 'l' :: 's' :: 'e' :: rest from rfl, parseValue,
            if_neg (by decide), if_neg (by decide), if_neg (by decide),
            if_neg (by decide), if_neg (by decide), if_pos rfl, lit4,
            if_pos ⟨rfl, rfl, rfl, rfl⟩]
        · rw [show dumpJson (Json.bool true) ++ rest =
            't' :: 'r' :: 'u' :: 'e' :: rest from rfl, parseValue,
            if_neg (by decide), if_neg (by decide), if_neg (by decide),
            if_neg (by decide), if_pos rfl, lit3, if_pos ⟨rfl, rfl, rfl⟩]
      | num n =>
        rw [wfJson] at hv
        obtain ⟨c, cs, hc, hcls⟩ := printJNum_head n hv
        rw [show dumpJson (Json.num n) = printJNum n from rfl, hc, List.cons_append,
          parseValue,
          if_neg (charNe_of_toNat (show c.toNat ≠ 34 by omega)),
          if_neg (charNe_of_toNat (show c.toNat ≠ 123 by omega)),
          if_neg (charNe_of_toNat (show c.toNat ≠ 91 by omega)),
          if_neg (charNe_of_toNat (show c.toNat ≠ 110 by omega)),
          if_neg (charNe_of_toNat (show c.toNat ≠ 116 by omega)),
          if_neg (charNe_of_toNat (show c.toNat ≠ 102 by omega)),
          show c :: (cs ++ rest) = (c :: cs) ++ rest from rfl, ← hc,
          parseJNum_print n hv rest (fun c2 hc2 => followBoundary (hrest c2 hc2))]
        rfl
      | str s =>
        simp only [sizeJ] at hs
        rw [show dumpJson (Json.str s) ++ rest = '"' :: (escString s ++ '"' :: rest)
          from by simp [dumpJson, dumpStr], parseValue, if_pos rfl,
          parseJString_esc s f (by omega) rest]
        rfl
      | arr xs =>
        rw [wfJson] at hv
        simp only [sizeJ] at hs
        rw [show dumpJson (Json.arr xs) ++ rest = '[' :: (dumpArrBody xs ++ rest)
          from rfl, parseValue, if_neg (by decide), if_neg (by decide), if_pos rfl]
        obtain ⟨g, rfl⟩ : ∃ g, f = g + 1 := ⟨f - 1, by omega⟩
        cases xs with
        | nil =>
          rw [show dumpArrBody JsonList.nil ++ rest = ']' :: rest from rfl,
            parseArrFirst, skipWs_cons_nws (by decide)]
          dsimp only
          rw [if_pos rfl]
        | cons h t =>
          rw [wfJsonList, Bool.and_eq_true] at hv
          obtain ⟨hvh, hvt⟩ := hv
          simp only [sizeL] at hs
          obtain ⟨c, cs, hc, hws, hne1, -, -⟩ := dumpJson_head h hvh
          have harr : dumpArrBody (JsonList.cons h t) ++ rest =
              c :: (cs ++ (dumpArrSep t ++ rest)) := by
            rw [dumpArrBody, hc]
            simp [List.append_assoc]
          rw [parseArrFirst, harr, skipWs_cons_nws hws]
          dsimp only
          rw [if_neg hne1,
            show c :: (cs ++ (dumpArrSep t ++ rest)) = (c :: cs) ++ (dumpArrSep t ++ rest)
              from rfl, ← hc,
            (ih g (by omega)).1 h (dumpArrSep t ++ rest) hvh (by omega)
              (dumpArrSep_follow t rest)]
          dsimp only
          rw [(ih g (by omega)).2.1 t rest hvt (by omega) hrest]
      | obj kvs =>
        rw [wfJson, Bool.and_eq_true] at hv
        obtain ⟨-, hvk⟩ := hv
        simp only [sizeJ] at hs
        rw [show dumpJson (Json.obj kvs) ++ rest = '{' :: (dumpObjBody kvs ++ rest)
          from rfl, parseValue, if_neg (by decide), if_pos rfl]
        obtain ⟨g, rfl⟩ : ∃ g, f = g + 1 := ⟨f - 1, by omega⟩
        cases kvs with
        | nil =>
          rw [show dumpObjBody JsonKVs.nil ++ rest = '}' :: rest from rfl,
            parseObjFirst, skipWs_cons_nws (by decide)]
          dsimp only
          rw [if_pos rfl]
        | cons k v t =>
          rw [wfJsonKVs, Bool.and_eq_true] at hvk
          obtain ⟨hvv, hvt⟩ := hvk
          simp only [sizeK] at hs
          have hobj : dumpObjBody (JsonKVs.cons k v t) ++ rest =
              '"' :: (escString k ++ '"' ::
                (':' :: ' ' :: (dumpJson v ++ (dumpObjSep t ++ rest)))) := by
            rw [dumpObjBody, dumpStr]
            simp [List.append_assoc]
          rw [parseObjFirst, hobj, skipWs_cons_nws (by decide)]
          dsimp only
          rw [if_neg (by decide), if_pos rfl, parseJString_esc k g (by omega)]
          dsimp only
          obtain ⟨g2, rfl⟩ : ∃ g2, g = g2 + 1 := ⟨g - 1, by omega⟩
          have hmem : parseMember (g2 + 1)
              (':' :: ' ' :: (dumpJson v ++ (dumpObjSep t ++ rest))) =
              some (v, dumpObjSep t ++ rest) := by
            obtain ⟨c, cs, hc, hws, -, -, -⟩ := dumpJson_head v hvv
            rw [parseMember, skipWs_cons_nws (by decide)]
            dsimp only
            rw [if_pos rfl, skipWs_space, hc, List.cons_append, skipWs_cons_nws hws,
              ← List.cons_append, ← hc]
            exact (ih g2 (by omega)).1 v (dumpObjSep t ++ rest) hvv (by omega)
              (dumpObjSep_follow t rest)
          rw [hmem]
          dsimp only
          rw [(ih (g2 + 1) (by omega)).2.2 t rest hvt (by omega) hrest]
    · -- parseArrRest over dumpArrSep
      intro xs rest hxs hs hrest
      cases xs with
      | nil =>
        rw [show dumpArrSep JsonList.nil ++ rest = ']' :: rest from rfl, parseArrRest,
          skipWs_cons_nws (by decide)]
        dsimp only
        rw [if_pos rfl]
      | cons h t =>
        rw [wfJsonList, Bool.and_eq_true] at hxs
        obtain ⟨hvh, hvt⟩ := hxs
        simp only [sizeL] at hs
        obtain ⟨c, cs, hc, hws, -, -, -⟩ := dumpJson_head h hvh
        rw [show dumpArrSep (JsonList.cons h t) ++ rest =
          ',' :: ' ' :: (dumpJson h ++ (dumpArrSep t ++ rest)) from by
            rw [dumpArrSep]; simp [List.append_assoc], parseArrRest,
          skipWs_cons_nws (by decide)]
        dsimp only
        rw [if_neg (by decide), if_pos rfl, skipWs_space, hc, List.cons_append,
          skipWs_cons_nws hws, ← List.cons_append, ← hc,
          (ih f (by omega)).1 h (dumpArrSep t ++ rest) hvh (by omega)
            (dumpArrSep_follow t rest)]
        dsimp only
        rw [(ih f (by omega)).2.1 t rest hvt (by omega) hrest]
    · -- parseObjRest over dumpObjSep
      intro kvs rest hkvs hs hrest
      cases kvs with
      | nil =>
        rw [show dumpObjSep JsonKVs.nil ++ rest = '}' :: rest from rfl, parseObjRest,
          skipWs_cons_nws (by decide)]
        dsimp only
        rw [if_pos rfl]
      | cons k v t =>
        rw [wfJsonKVs, Bool.and_eq_true] at hkvs
        obtain ⟨hvv, hvt⟩ := hkvs
        simp only [sizeK] at hs
        rw [show dumpObjSep (JsonKVs.cons k v t) ++ rest =
          ',' :: ' ' :: ('"' :: (escString k ++ '"' ::
            (':' :: ' ' :: (dumpJson v ++ (dumpObjSep t ++ rest))))) from by
            rw [dumpObjSep, dumpStr]; simp [List.append_assoc], parseObjRest,
          skipWs_cons_nws (by decide)]
        dsimp only
        rw [if_neg (by decide), if_pos rfl, skipWs_space, skipWs_cons_nws (by decide)]
        dsimp only
        rw [if_pos rfl, parseJString_esc k f (by omega)]
        dsimp only
        obtain ⟨g2, rfl⟩ : ∃ g2, f = g2 + 1 := ⟨f - 1, by omega⟩
        have hmem : parseMember (g2 + 1)
            (':' :: ' ' :: (dumpJson v ++ (dumpObjSep t ++ rest))) =
            some (v, dumpObjSep t ++ rest) := by
          obtain ⟨c, cs, hc, hws, -, -, -⟩ := dumpJson_head v hvv
          rw [parseMember, skipWs_cons_nws (by decide)]
          dsimp only
          rw [if_pos rfl, skipWs_space, hc, List.cons_append, skipWs_cons_nws hws,
            ← List.cons_append, ← hc]
          exact (ih g2 (by omega)).1 v (dumpObjSep t ++ rest) hvv (by omega)
            (dumpObjSep_follow t rest)
        rw [hmem]
        dsimp only
        rw [(ih (g2 + 1) (by omega)).2.2 t rest hvt (by omega) hrest]

/-- `json.loads (json.dumps v) = v` for well-formed documents. -/
theorem jsonLoads_dump (v : Json) (hv : wfJson v = true) :
    jsonLoads (dumpJson v) = some v := by
  obtain ⟨c, cs, hc, hws, -, -, -⟩ := dumpJson_head v hv
  have hsk : skipWs (dumpJson v) = dumpJson v := by
    rw [hc]
    exact skipWs_cons_nws hws cs
  have hp := (parse_dump_all (3 * (dumpJson v).length + 3)).1 v [] hv
    (by have := sizeJ_le v hv; omega) (by intro c2 hc2; simp at hc2)
  rw [List.append_nil] at hp
  rw [jsonLoads, hsk, hp]
  rfl


/-! ### UTF-8 facts -/

theorem utf8EncodeChar_ascii {c : Char} (h : c.toNat < 0x80) :
    utf8EncodeChar c = [c.toNat] := by
  simp [utf8EncodeChar, h]

theorem utf8Encode_cons (c : Char) (t : List Char) :
    utf8Encode (c :: t) = utf8EncodeChar c ++ utf8Encode t := rfl

theorem utf8Encode_append (X Y : List Char) :
    utf8Encode (X ++ Y) = utf8Encode X ++ utf8Encode Y := by
  induction X with
  | nil => rfl
  | cons c t ih =>
    rw [List.cons_append, utf8Encode_cons, utf8Encode_cons, ih, List.append_assoc]

theorem utf8Encode_ascii {s : List Char} (h : ∀ c ∈ s, c.toNat < 0x80) :
    utf8Encode s = s.map Char.toNat := by
  induction s with
  | nil => rfl
  | cons c t ih =>
    rw [utf8Encode_cons, utf8EncodeChar_ascii (h c (by simp)),
      ih (fun x hx => h x (by simp [hx])), List.map_cons, List.singleton_append]

theorem utf8DecodeF_cons (fuel b : Nat) (t : List Nat) :
    utf8DecodeF (fuel + 1) (b :: t) =
      (if b < 0x80 then (utf8DecodeF fuel t).map (fun r => Char.ofNat b :: r)
       else if b < 0xc2 then none
       else if b < 0xe0 then
         match t with
         | b2 :: t2 =>
           if 0x80 ≤ b2 ∧ b2 < 0xc0 then
             (utf8DecodeF fuel t2).map (fun r =>
               Char.ofNat ((b - 0xc0) * 64 + (b2 - 0x80)) :: r)
           else none
         | [] => none
       else if b < 0xf0 then
         match t with
         | b2 :: b3 :: t3 =>
           if (if b = 0xe0 then 0xa0 else 0x80) ≤ b2 ∧
               b2 ≤ (if b = 0xed then 0x9f else 0xbf) ∧
               0x80 ≤ b3 ∧ b3 < 0xc0 then
             (utf8DecodeF fuel t3).map (fun r =>
               Char.ofNat ((b - 0xe0) * 4096 + (b2 - 0x80) * 64 + (b3 - 0x80)) :: r)
           else none
         | _ => none
       else if b < 0xf5 then
         match t with
         | b2 :: b3 :: b4 :: t4 =>
           if (if b = 0xf0 then 0x90 else 0x80) ≤ b2 ∧
               b2 ≤ (if b = 0xf4 then 0x8f else 0xbf) ∧
               0x80 ≤ b3 ∧ b3 < 0xc0 ∧ 0x80 ≤ b4 ∧ b4 < 0xc0 then
             (utf8DecodeF fuel t4).map (fun r =>
               Char.ofNat ((b - 0xf0) * 0x40000 + (b2 - 0x80) * 4096 +
                 (b3 - 0x80) * 64 + (b4 - 0x80)) :: r)
           else none
         | _ => none
       else none) := rfl

theorem utf8DecodeF_map_ascii {s : List Char} (h : ∀ c ∈ s, c.toNat < 0x80) :
    ∀ fuel, s.length ≤ fuel → utf8DecodeF fuel (s.map Char.toNat) = some s := by
  induction s with
  | nil => intro fuel _; cases fuel <;> rfl
  | cons c t ih =>
    intro fuel hf
    obtain ⟨f, rfl⟩ : ∃ f, fuel = f + 1 := ⟨fuel - 1, by simp at hf; omega⟩
    have hc := h c (by simp)
    rw [List.map_cons, utf8DecodeF_cons, if_pos hc,
      ih (fun x hx => h x (by simp [hx])) f (by simp at hf; omega)]
    rw [Char.ofNat_toNat]
    rfl

theorem utf8Decode_map_ascii {s : List Char} (h : ∀ c ∈ s, c.toNat < 0x80) :
    utf8Decode (s.map Char.toNat) = some s := by
  rw [utf8Decode, List.length_map]
  exact utf8DecodeF_map_ascii h s.length (le_refl _)

theorem utf8Decode_encode_ascii {s : List Char} (h : ∀ c ∈ s, c.toNat < 0x80) :
    utf8Decode (utf8Encode s) = some s := by
  rw [utf8Encode_ascii h]
  exact utf8Decode_map_ascii h

theorem utf8EncodeChar_lt (c : Char) : ∀ b ∈ utf8EncodeChar c, b < 256 := by
  intro b hb
  have hv := charValid c
  simp only [utf8EncodeChar] at hb
  split at hb
  · simp at hb
    omega
  · split at hb
    · simp at hb
      rcases hb with rfl | rfl <;> omega
    · split at hb
      · simp at hb
        rcases hb with rfl | rfl | rfl <;> omega
      · simp at hb
        rcases hb with rfl | rfl | rfl | rfl <;> omega

theorem utf8Encode_lt (s : List Char) : ∀ b ∈ utf8Encode s, b < 256 := by
  induction s with
  | nil => simp [utf8Encode]
  | cons c t ih =>
    intro b hb
    rw [utf8Encode_cons] at hb
    rcases List.mem_append.mp hb with h | h
    · exact utf8EncodeChar_lt c b h
    · exact ih b h

/-! ### The printed JSON text is ASCII (`ensure_ascii=True`) -/

theorem hexLower_ascii (d : Nat) (h : d < 16) : (hexLower d).toNat < 0x80 := by
  rw [hexLower]
  split
  · rw [charToNat_ofNat (by omega)]
    omega
  · rw [charToNat_ofNat (by omega)]
    omega

theorem toHex4_ascii (n : Nat) : ∀ c ∈ toHex4 n, c.toNat < 0x80 := by
  rw [toHex4]
  simp only [List.forall_mem_cons]
  exact ⟨hexLower_ascii _ (Nat.mod_lt _ (by omega)),
    hexLower_ascii _ (Nat.mod_lt _ (by omega)),
    hexLower_ascii _ (Nat.mod_lt _ (by omega)),
    hexLower_ascii _ (Nat.mod_lt _ (by omega)),
    List.forall_mem_nil _⟩

theorem escChar_ascii (c : Char) : ∀ x ∈ escChar c, x.toNat < 0x80 := by
  by_cases h1 : c = '\\'
  · rw [escChar, if_pos h1]
    decide
  by_cases h2 : c = '"'
  · rw [escChar, if_neg h1, if_pos h2]
    decide
  by_cases h3 : c = '\x08'
  · rw [escChar, if_neg h1, if_neg h2, if_pos h3]
    decide
  by_cases h4 : c = '\x0c'
  · rw [escChar, if_neg h1, if_neg h2, if_neg h3, if_pos h4]
    decide
  by_cases h5 : c = '\n'
  · rw [escChar, if_neg h1, if_neg h2, if_neg h3, if_neg h4, if_pos h5]
    decide
  by_cases h6 : c = '\r'
  · rw [escChar, if_neg h1, if_neg h2, if_neg h3, if_neg h4, if_neg h5, if_pos h6]
    decide
  by_cases h7 : c = '\t'
  · rw [escChar, if_neg h1, if_neg h2, if_neg h3, if_neg h4, if_neg h5, if_neg h6,
      if_pos h7]
    decide
  by_cases h8 : 0x20 ≤ c.toNat ∧ c.toNat ≤ 0x7e
  · rw [escChar, if_neg h1, if_neg h2, if_neg h3, if_neg h4, if_neg h5, if_neg h6,
      if_neg h7, if_pos h8]
    intro x hx
    rw [List.mem_singleton] at hx
    subst hx
    omega
  by_cases h9 : c.toNat < 0x10000
  · rw [escChar, if_neg h1, if_neg h2, if_neg h3, if_neg h4, if_neg h5, if_neg h6,
      if_neg h7, if_neg h8, if_pos h9]
    intro x hx
    rcases List.mem_cons.mp hx with rfl | hx
    · decide
    rcases List.mem_cons.mp hx with rfl | hx
    · decide
    exact toHex4_ascii _ x hx
  · rw [escChar, if_neg h1, if_neg h2, if_neg h3, if_neg h4, if_neg h5, if_neg h6,
      if_neg h7, if_neg h8, if_neg h9]
    intro x hx
    simp only [List.cons_append, List.mem_cons, List.mem_append] at hx
    rcases hx with rfl | rfl | hx | rfl | rfl | hx
    · decide
    · decide
    · exact toHex4_ascii _ x hx
    · decide
    · decide
    · exact toHex4_ascii _ x hx

theorem escString_ascii (s : List Char) : ∀ x ∈ escString s, x.toNat < 0x80 := by
  induction s with
  | nil => simp [escString]
  | cons c t ih =>
    intro x hx
    rw [escString_cons] at hx
    rcases List.mem_append.mp hx with h | h
    · exact escChar_ascii c x h
    · exact ih x h

theorem digitsChars_ascii {l : List Nat} (h : wfDigits l = true) :
    ∀ c ∈ digitsChars l, c.toNat < 0x80 := by
  intro c hc
  rw [digitsChars, List.mem_map] at hc
  obtain ⟨d, hd, rfl⟩ := hc
  rw [wfDigits, List.all_eq_true] at h
  have := h d hd
  simp only [decide_eq_true_eq] at this
  rw [digitChar_toNat this]
  omega

theorem fracChars_ascii {l : List Nat} (h : wfDigits l = true) :
    ∀ c ∈ fracChars l, c.toNat < 0x80 := by
  rw [fracChars]
  split
  · simp
  · simp only [List.forall_mem_cons]
    exact ⟨by decide, digitsChars_ascii h⟩

theorem expChars_ascii {ep : Option (Bool × List Nat)} (h : wfEp ep = true) :
    ∀ c ∈ expChars ep, c.toNat < 0x80 := by
  cases ep with
  | none => simp [expChars]
  | some p =>
    obtain ⟨sg, ds⟩ := p
    rw [wfEp, Bool.and_eq_true] at h
    rw [expChars]
    simp only [List.forall_mem_cons]
    refine ⟨by decide, ?_, digitsChars_ascii h.2⟩
    cases sg <;> decide

theorem printJNum_ascii {n : JNum} (h : wfJNum n = true) :
    ∀ c ∈ printJNum n, c.toNat < 0x80 := by
  obtain ⟨neg, ip, fp, ep⟩ := n
  rw [wfJNum] at h
  simp only [Bool.and_eq_true] at h
  obtain ⟨⟨⟨⟨-, hipd⟩, -⟩, hfpd⟩, hepd⟩ := h
  rw [printJNum]
  simp only [List.forall_mem_append]
  refine ⟨⟨⟨?_, digitsChars_ascii hipd⟩, fracChars_ascii hfpd⟩, expChars_ascii hepd⟩
  cases neg
  · intro x hx
    simp at hx
  · intro x hx
    simp at hx
    subst hx
    decide

mutual

theorem dumpJson_ascii : ∀ (v : Json), wfJson v = true → ∀ c ∈ dumpJson v, c.toNat < 0x80
  | Json.null, _ => by decide
  | Json.bool b, _ => by cases b <;> decide
  | Json.num n, h => by
    rw [wfJson] at h
    exact printJNum_ascii h
  | Json.str s, _ => by
    simp only [dumpJson, dumpStr, List.cons_append, List.forall_mem_cons,
      List.forall_mem_append, List.forall_mem_singleton]
    exact ⟨by decide, escString_ascii s, by decide⟩
  | Json.arr JsonList.nil, _ => by decide
  | Json.arr (JsonList.cons hd tl), h => by
    rw [wfJson, wfJsonList, Bool.and_eq_true] at h
    simp only [dumpJson, dumpArrBody, List.forall_mem_cons, List.forall_mem_append]
    exact ⟨by decide, dumpJson_ascii hd h.1, dumpArrSep_ascii tl h.2⟩
  | Json.obj JsonKVs.nil, _ => by decide
  | Json.obj (JsonKVs.cons k v tl), h => by
    rw [wfJson, Bool.and_eq_true] at h
    obtain ⟨-, h2⟩ := h
    rw [wfJsonKVs, Bool.and_eq_true] at h2
    intro c hc
    rw [dumpJson] at hc
    rcases List.mem_cons.mp hc with rfl | hc
    · decide
    rw [dumpObjBody] at hc
    rcases List.mem_append.mp hc with hc | hc
    · rw [dumpStr] at hc
      rcases List.mem_append.mp hc with hc | hc
      · rcases List.mem_cons.mp hc with rfl | hc
        · decide
        · exact escString_ascii k c hc
      · rcases List.mem_cons.mp hc with rfl | hc
        · decide
        · simp at hc
    · rcases List.mem_cons.mp hc with rfl | hc
      · decide
      rcases List.mem_cons.mp hc with rfl | hc
      · decide
      rcases List.mem_append.mp hc with hc | hc
      · exact dumpJson_ascii v h2.1 c hc
      · exact dumpObjSep_ascii tl h2.2 c hc

theorem dumpArrSep_ascii : ∀ (xs : JsonList), wfJsonList xs = true →
    ∀ c ∈ dumpArrSep xs, c.toNat < 0x80
  | JsonList.nil, _ => by decide
  | JsonList.cons hd tl, h => by
    rw [wfJsonList, Bool.and_eq_true] at h
    simp only [dumpArrSep, List.forall_mem_cons, List.forall_mem_append]
    exact ⟨by decide, by decide, dumpJson_ascii hd h.1, dumpArrSep_ascii tl h.2⟩

theorem dumpObjSep_ascii : ∀ (kvs : JsonKVs), wfJsonKVs kvs = true →
    ∀ c ∈ dumpObjSep kvs, c.toNat < 0x80
  | JsonKVs.nil, _ => by decide
  | JsonKVs.cons k v tl, h => by
    rw [wfJsonKVs, Bool.and_eq_true] at h
    intro c hc
    rw [dumpObjSep] at hc
    rcases List.mem_cons.mp hc with rfl | hc
    · decide
    rcases List.mem_cons.mp hc with rfl | hc
    · decide
    rcases List.mem_append.mp hc with hc | hc
    · rw [dumpStr] at hc
      rcases List.mem_append.mp hc with hc | hc
      · rcases List.mem_cons.mp hc with rfl | hc
        · decide
        · exact escString_ascii k c hc
      · rcases List.mem_cons.mp hc with rfl | hc
        · decide
        · simp at hc
    · rcases List.mem_cons.mp hc with rfl | hc
      · decide
      rcases List.mem_cons.mp hc with rfl | hc
      · decide
      rcases List.mem_append.mp hc with hc | hc
      · exact dumpJson_ascii v h.1 c hc
      · exact dumpObjSep_ascii tl h.2 c hc

end


/-! ### Base64 round trip -/

theorem b64Char_props (x : Nat) :
    (b64Char x).toNat < 0x80 ∧ b64Char x ≠ '=' ∧ b64Char x ≠ '\n' ∧ b64Char x ≠ '_' := by
  rw [b64Char]
  by_cases h1 : x < 26
  · rw [if_pos h1]
    have ht : (Char.ofNat (65 + x)).toNat = 65 + x := charToNat_ofNat (by omega)
    refine ⟨by rw [ht]; omega, charNe_of_toNat ?_, charNe_of_toNat ?_, charNe_of_toNat ?_⟩
    · rw [ht, show ('=').toNat = 61 from rfl]
      omega
    · rw [ht, show ('\n').toNat = 10 from rfl]
      omega
    · rw [ht, show ('_').toNat = 95 from rfl]
      omega
  rw [if_neg h1]
  by_cases h2 : x < 52
  · rw [if_pos h2]
    have ht : (Char.ofNat (97 + (x - 26))).toNat = 97 + (x - 26) := charToNat_ofNat (by omega)
    refine ⟨by rw [ht]; omega, charNe_of_toNat ?_, charNe_of_toNat ?_, charNe_of_toNat ?_⟩
    · rw [ht, show ('=').toNat = 61 from rfl]
      omega
    · rw [ht, show ('\n').toNat = 10 from rfl]
      omega
    · rw [ht, show ('_').toNat = 95 from rfl]
      omega
  rw [if_neg h2]
  by_cases h3 : x < 62
  · rw [if_pos h3]
    have ht : (Char.ofNat (48 + (x - 52))).toNat = 48 + (x - 52) := charToNat_ofNat (by omega)
    refine ⟨by rw [ht]; omega, charNe_of_toNat ?_, charNe_of_toNat ?_, charNe_of_toNat ?_⟩
    · rw [ht, show ('=').toNat = 61 from rfl]
      omega
    · rw [ht, show ('\n').toNat = 10 from rfl]
      omega
    · rw [ht, show ('_').toNat = 95 from rfl]
      omega
  rw [if_neg h3]
  by_cases h4 : x = 62
  · rw [if_pos h4]
    exact ⟨by decide, by decide, by decide, by decide⟩
  · rw [if_neg h4]
    exact ⟨by decide, by decide, by decide, by decide⟩

theorem b64Val?_b64Char {x : Nat} (h : x < 64) : b64Val? (b64Char x) = some x := by
  interval_cases x <;> decide

theorem b64encode_mem : ∀ (bs : List Nat), (∀ b ∈ bs, b < 256) →
    ∀ c ∈ b64encode bs, c = '=' ∨ ∃ x, x < 64 ∧ c = b64Char x
  | [], _ => by simp [b64encode]
  | [b1], h => by
    intro c hc
    have hb1 : b1 < 256 := h b1 (by simp)
    rw [show b64encode [b1] =
      [b64Char (b1 / 4), b64Char (b1 % 4 * 16), '=', '='] from rfl] at hc
    rcases List.mem_cons.mp hc with rfl | hc
    · exact Or.inr ⟨b1 / 4, by omega, rfl⟩
    rcases List.mem_cons.mp hc with rfl | hc
    · exact Or.inr ⟨b1 % 4 * 16, by omega, rfl⟩
    rcases List.mem_cons.mp hc with rfl | hc
    · exact Or.inl rfl
    rcases List.mem_cons.mp hc with rfl | hc
    · exact Or.inl rfl
    · simp at hc
  | [b1, b2], h => by
    intro c hc
    have hb1 : b1 < 256 := h b1 (by simp)
    have hb2 : b2 < 256 := h b2 (by simp)
    rw [show b64encode [b1, b2] = [b64Char (b1 / 4), b64Char (b1 % 4 * 16 + b2 / 16),
      b64Char (b2 % 16 * 4), '='] from rfl] at hc
    rcases List.mem_cons.mp hc with rfl | hc
    · exact Or.inr ⟨b1 / 4, by omega, rfl⟩
    rcases List.mem_cons.mp hc with rfl | hc
    · exact Or.inr ⟨b1 % 4 * 16 + b2 / 16, by omega, rfl⟩
    rcases List.mem_cons.mp hc with rfl | hc
    · exact Or.inr ⟨b2 % 16 * 4, by omega, rfl⟩
    rcases List.mem_cons.mp hc with rfl | hc
    · exact Or.inl rfl
    · simp at hc
  | b1 :: b2 :: b3 :: t, h => by
    intro c hc
    have hb1 : b1 < 256 := h b1 (by simp)
    have hb2 : b2 < 256 := h b2 (by simp)
    have hb3 : b3 < 256 := h b3 (by simp)
    rw [show b64encode (b1 :: b2 :: b3 :: t) = b64Char (b1 / 4) ::
      b64Char (b1 % 4 * 16 + b2 / 16) :: b64Char (b2 % 16 * 4 + b3 / 64) ::
      b64Char (b3 % 64) :: b64encode t from rfl] at hc
    rcases List.mem_cons.mp hc with rfl | hc
    · exact Or.inr ⟨b1 / 4, by omega, rfl⟩
    rcases List.mem_cons.mp hc with rfl | hc
    · exact Or.inr ⟨b1 % 4 * 16 + b2 / 16, by omega, rfl⟩
    rcases List.mem_cons.mp hc with rfl | hc
    · exact Or.inr ⟨b2 % 16 * 4 + b3 / 64, by omega, rfl⟩
    rcases List.mem_cons.mp hc with rfl | hc
    · exact Or.inr ⟨b3 % 64, by omega, rfl⟩
    · exact b64encode_mem t (fun b hb => h b (by simp [hb])) c hc

theorem b64decodeQuads_cons (a b c d : Char) (t : List Char) :
    b64decodeQuads (a :: b :: c :: d :: t) =
      (match b64Val? a, b64Val? b with
       | some va, some vb =>
         if c = '=' ∧ d = '=' ∧ t = [] then some [va * 4 + vb / 16]
         else
           match b64Val? c with
           | some vc =>
             if d = '=' ∧ t = [] then some [va * 4 + vb / 16, vb % 16 * 16 + vc / 4]
             else
               match b64Val? d with
               | some vd =>
                 (b64decodeQuads t).map (fun r =>
                   (va * 4 + vb / 16) :: (vb % 16 * 16 + vc / 4) :: (vc % 4 * 64 + vd) :: r)
               | none => none
           | none => none
       | _, _ => none) := rfl

theorem b64decodeQuads_encode : ∀ (bs : List Nat), (∀ b ∈ bs, b < 256) →
    b64decodeQuads (b64encode bs) = some bs
  | [], _ => rfl
  | [b1], h => by
    have hb1 : b1 < 256 := h b1 (by simp)
    rw [show b64encode [b1] =
      [b64Char (b1 / 4), b64Char (b1 % 4 * 16), '=', '='] from rfl,
      b64decodeQuads_cons, b64Val?_b64Char (by omega), b64Val?_b64Char (by omega)]
    dsimp only
    rw [if_pos ⟨rfl, rfl, rfl⟩]
    rw [show b1 / 4 * 4 + b1 % 4 * 16 / 16 = b1 from by omega]
  | [b1, b2], h => by
    have hb1 : b1 < 256 := h b1 (by simp)
    have hb2 : b2 < 256 := h b2 (by simp)
    rw [show b64encode [b1, b2] = [b64Char (b1 / 4), b64Char (b1 % 4 * 16 + b2 / 16),
      b64Char (b2 % 16 * 4), '='] from rfl,
      b64decodeQuads_cons, b64Val?_b64Char (by omega), b64Val?_b64Char (by omega)]
    dsimp only
    rw [if_neg (fun hcon => (b64Char_props (b2 % 16 * 4)).2.1 hcon.1),
      b64Val?_b64Char (by omega)]
    dsimp only
    rw [if_pos ⟨rfl, rfl⟩,
      show b1 / 4 * 4 + (b1 % 4 * 16 + b2 / 16) / 16 = b1 from by omega,
      show (b1 % 4 * 16 + b2 / 16) % 16 * 16 + b2 % 16 * 4 / 4 = b2 from by omega]
  | b1 :: b2 :: b3 :: t, h => by
    have hb1 : b1 < 256 := h b1 (by simp)
    have hb2 : b2 < 256 := h b2 (by simp)
    have hb3 : b3 < 256 := h b3 (by simp)
    rw [show b64encode (b1 :: b2 :: b3 :: t) = b64Char (b1 / 4) ::
      b64Char (b1 % 4 * 16 + b2 / 16) :: b64Char (b2 % 16 * 4 + b3 / 64) ::
      b64Char (b3 % 64) :: b64encode t from rfl,
      b64decodeQuads_cons, b64Val?_b64Char (by omega), b64Val?_b64Char (by omega)]
    dsimp only
    rw [if_neg (fun hcon => (b64Char_props (b2 % 16 * 4 + b3 / 64)).2.1 hcon.1),
      b64Val?_b64Char (by omega)]
    dsimp only
    rw [if_neg (fun hcon => (b64Char_props (b3 % 64)).2.1 hcon.1),
      b64Val?_b64Char (by omega)]
    dsimp only
    rw [b64decodeQuads_encode t (fun b hb => h b (by simp [hb]))]
    rw [show b1 / 4 * 4 + (b1 % 4 * 16 + b2 / 16) / 16 = b1 from by omega,
      show (b1 % 4 * 16 + b2 / 16) % 16 * 16 + (b2 % 16 * 4 + b3 / 64) / 4 = b2
        from by omega,
      show (b2 % 16 * 4 + b3 / 64) % 4 * 64 + b3 % 64 = b3 from by omega]
    rfl

theorem b64decode_encode {bs : List Nat} (h : ∀ b ∈ bs, b < 256) :
    b64decode (b64encode bs) = some bs := by
  have hkeep : ∀ c ∈ b64encode bs, ((b64Val? c).isSome || decide (c = '=')) = true := by
    intro c hc
    rcases b64encode_mem bs h c hc with rfl | ⟨x, hx, rfl⟩
    · simp
    · rw [b64Val?_b64Char hx]
      simp
  rw [b64decode, List.filter_eq_self.mpr hkeep, b64decodeQuads_encode bs h]

/-! ### Marker/newline framing -/

theorem leadsWith_self_append : ∀ (p X : List Char), leadsWith p (p ++ X) = true
  | [], _ => rfl
  | a :: t, X => by
    rw [List.cons_append, leadsWith, leadsWith_self_append t X]
    simp

theorem pyContains_self_append (p : List Char) (hp : p ≠ []) (X : List Char) :
    pyContains p (p ++ X) = true := by
  cases p with
  | nil => exact absurd rfl hp
  | cons a t =>
    rw [List.cons_append, pyContains, ← List.cons_append, leadsWith_self_append]
    rfl

theorem splitAfterFirst_self (p : List Char) (hp : p ≠ []) (X : List Char) :
    splitAfterFirst p (p ++ X) = X := by
  cases p with
  | nil => exact absurd rfl hp
  | cons a t =>
    rw [List.cons_append, splitAfterFirst, ← List.cons_append, leadsWith_self_append,
      if_pos rfl, List.drop_left]

theorem leadsWith_marker_nl (Y : List Char) :
    leadsWith markerChars ('\n' :: Y) = false := by
  rw [markerChars, leadsWith]
  simp

theorem splitAfterFirst_nl_marker (X : List Char) :
    splitAfterFirst markerChars ('\n' :: (markerChars ++ X)) = X := by
  rw [splitAfterFirst, leadsWith_marker_nl, if_neg (by simp)]
  exact splitAfterFirst_self markerChars (by decide) X

theorem pyContains_right {p Y : List Char} (h : pyContains p Y = true) (X : List Char) :
    pyContains p (X ++ Y) = true := by
  induction X with
  | nil => simpa
  | cons c t ih =>
    rw [List.cons_append, pyContains, ih]
    simp

theorem beforeFirst_append {X : List Char} (h : ∀ c ∈ X, c ≠ '\n') :
    beforeFirst ['\n'] (X ++ ['\n']) = X := by
  induction X with
  | nil => decide
  | cons c t ih =>
    rw [List.cons_append, beforeFirst, leadsWith,
      decide_eq_false (fun e => h c (by simp) e.symm), Bool.false_and,
      if_neg (by simp), ih (fun x hx => h x (by simp [hx]))]

theorem pyContains_one_false {a : Char} {X : List Char} (h : ∀ c ∈ X, c ≠ a) :
    pyContains [a] X = false := by
  induction X with
  | nil => rfl
  | cons c t ih =>
    rw [pyContains, ih (fun x hx => h x (by simp [hx])), leadsWith,
      decide_eq_false (fun e => h c (by simp) e.symm)]
    simp [leadsWith]

theorem leadsWith_marker_b64 {X : List Char}
    (h : ∀ c ∈ X, c = '=' ∨ ∃ x, x < 64 ∧ c = b64Char x) :
    leadsWith markerChars X = false := by
  rcases X with - | ⟨a, - | ⟨b, - | ⟨c, - | ⟨d, t⟩⟩⟩⟩
  · rfl
  · simp [markerChars, leadsWith]
  · simp [markerChars, leadsWith]
  · simp [markerChars, leadsWith]
  · have hd : d ≠ '_' := by
      rcases h d (by simp) with rfl | ⟨x, -, rfl⟩
      · decide
      · exact (b64Char_props x).2.2.2
    rw [markerChars]
    simp [leadsWith]
    intro _ _ _ hde
    exact absurd hde.symm hd

/-! ### The snapshot pipeline on framed input -/

theorem snapshotPayload_framed {B : List Char} (hnl : ∀ c ∈ B, c ≠ '\n')
    (hmk : leadsWith markerChars B = false) :
    snapshotPayload ('\n' :: (markerChars ++ (B ++ ['\n']))) = B := by
  have g1 : pyContains markerChars ('\n' :: (markerChars ++ (B ++ ['\n']))) = true := by
    rw [pyContains, pyContains_self_append markerChars (by decide)]
    simp
  have h1 : snapStep1 ('\n' :: (markerChars ++ (B ++ ['\n']))) = B ++ ['\n'] := by
    rw [snapStep1, g1, if_pos rfl, splitAfterFirst_nl_marker]
  have h2 : snapStep2 (B ++ ['\n']) = B := by
    rw [snapStep2, pyContains_right (show pyContains ['\n'] ['\n'] = true from rfl) B,
      if_pos rfl, beforeFirst_append hnl]
  have h3 : snapStep3 B = B := by
    rw [snapStep3, pyContains_one_false hnl, if_neg (by simp)]
  have h4 : snapStep4 B = B := by
    rw [snapStep4, hmk, if_neg (by simp)]
  rw [snapshotPayload, h1, h2, h3, h4]

/-- The decoder inverts the C5 framing: `b"\nSET_ENERGY=" +
base64(utf8(json.dumps(doc))) + b"\n"` processes to the document. -/
theorem processSnapshot_framed (doc : Json) (hdoc : wfJson doc = true) :
    processSnapshotBytes (framedSnapshotBytes doc) = SnapOutcome.ok doc := by
  have hbytes : ∀ b ∈ utf8Encode (dumpJson doc), b < 256 := utf8Encode_lt _
  have hmem := b64encode_mem (utf8Encode (dumpJson doc)) hbytes
  have hascii : ∀ c ∈ b64encode (utf8Encode (dumpJson doc)), c.toNat < 0x80 := by
    intro c hc
    rcases hmem c hc with rfl | ⟨x, -, rfl⟩
    · decide
    · exact (b64Char_props x).1
  have hnl : ∀ c ∈ b64encode (utf8Encode (dumpJson doc)), c ≠ '\n' := by
    intro c hc
    rcases hmem c hc with rfl | ⟨x, -, rfl⟩
    · decide
    · exact (b64Char_props x).2.2.1
  have hmk : leadsWith markerChars (b64encode (utf8Encode (dumpJson doc))) = false :=
    leadsWith_marker_b64 hmem
  have hL : ∀ c ∈ '\n' ::
      (markerChars ++ (b64encode (utf8Encode (dumpJson doc)) ++ ['\n'])),
      c.toNat < 0x80 := by
    intro c hc
    rcases List.mem_cons.mp hc with rfl | hc
    · decide
    rcases List.mem_append.mp hc with hc | hc
    · exact (show ∀ c ∈ markerChars, c.toNat < 0x80 from by decide) c hc
    rcases List.mem_append.mp hc with hc | hc
    · exact hascii c hc
    · rw [List.mem_singleton] at hc
      subst hc
      decide
  have hframe : framedSnapshotBytes doc = utf8Encode ('\n' ::
      (markerChars ++ (b64encode (utf8Encode (dumpJson doc)) ++ ['\n']))) := by
    simp only [framedSnapshotBytes, utf8Encode_cons, utf8Encode_append,
      show utf8EncodeChar '\n' = [10] from rfl,
      show utf8Encode ([] : List Char) = [] from rfl, List.append_nil,
      List.append_assoc]
  have hdec : utf8Decode (framedSnapshotBytes doc) = some ('\n' ::
      (markerChars ++ (b64encode (utf8Encode (dumpJson doc)) ++ ['\n']))) := by
    rw [hframe]
    exact utf8Decode_encode_ascii hL
  have hne : framedSnapshotBytes doc ≠ [] := by
    rw [hframe, utf8Encode_cons, show utf8EncodeChar '\n' = [10] from rfl]
    simp
  rw [processSnapshotBytes, if_neg hne, hdec]
  dsimp only
  rw [snapshotPayload_framed hnl hmk, b64decode_encode hbytes]
  dsimp only
  rw [utf8Decode_encode_ascii (dumpJson_ascii doc hdoc)]
  dsimp only
  rw [jsonLoads_dump doc hdoc]

/-! ## Claim theorems -/

/-- C1: for every frame build over a map of per-address relay states
(distinct addresses, each at least 1) and an optional override, the
dense array's length equals the maximum address among the state keys
and the override address; slot `address-1` holds `"255"` exactly when
the merged map marks that address ON (value `"255"`, `"on"` or `"1"`)
and `"0"` otherwise (including addresses absent from the map); and the
override's value wins at its address. -/
theorem C1_frame_density :
    (∀ (states : List (Int × String)) (a0 : Int) (v0 : String)
        (merged : List (Int × String)) (frame : List String) (M : Int),
      (alKeys states).Nodup → (∀ k ∈ alKeys states, 1 ≤ k) → 1 ≤ a0 →
      merged = (getAllDeviceDmxStates states (some (a0, v0))).1 →
      frame = buildFrame states (some (a0, v0)) →
      M = pyMaxKeys merged →
      ((frame.length : Int) = M ∧
       (M = a0 ∨ M ∈ alKeys states) ∧
       a0 ≤ M ∧ (∀ k ∈ alKeys states, k ≤ M) ∧
       alLookup merged a0 = some v0 ∧
       (∀ a : Int, 1 ≤ a → a ≤ M →
         frame.get? (a - 1).toNat =
           some (match alLookup merged a with
                 | some v => if isOnValue v then "255" else "0"
                 | none => "0")))) ∧
    (∀ (states : List (Int × String)) (frame : List String) (M : Int),
      states ≠ [] →
      (alKeys states).Nodup → (∀ k ∈ alKeys states, 1 ≤ k) →
      frame = buildFrame states none →
      M = pyMaxKeys states →
      ((frame.length : Int) = M ∧
       M ∈ alKeys states ∧ (∀ k ∈ alKeys states, k ≤ M) ∧
       (∀ a : Int, 1 ≤ a → a ≤ M →
         frame.get? (a - 1).toNat =
           some (match alLookup states a with
                 | some v => if isOnValue v then "255" else "0"
                 | none => "0")))) := by
  constructor
  · intro states a0 v0 merged frame M hnd hpos ha0 hm hf hM
    have hmerged : merged = alInsert states a0 v0 := by
      rw [hm, getAllDeviceDmxStates, if_pos (show a0 ≠ 0 by omega)]
    have hf' : frame = setDmxValueArray merged := by
      rw [hf, buildFrame, ← hm]
    have hka0 : a0 ∈ alKeys merged := by
      rw [hmerged]
      exact (alKeys_insert states a0 v0 a0).mpr (Or.inr rfl)
    have hne : merged ≠ [] := by
      intro he
      rw [he] at hka0
      exact List.not_mem_nil a0 hka0
    have hnd' : (alKeys merged).Nodup := by
      rw [hmerged]; exact alInsert_nodup a0 v0 hnd
    have hpos' : ∀ k ∈ alKeys merged, 1 ≤ k := by
      intro k hk
      rw [hmerged] at hk
      rcases (alKeys_insert states a0 v0 k).mp hk with hk' | rfl
      · exact hpos k hk'
      · exact ha0
    obtain ⟨hL, hS⟩ := setDmxValueArray_spec merged hne hnd' hpos'
    refine ⟨by rw [hf', hL, hM], ?_, ?_, ?_, ?_, ?_⟩
    · have := pyMaxKeys_mem hne
      rw [hmerged] at this
      rcases (alKeys_insert states a0 v0 _).mp this with h' | h'
      · rw [hM, hmerged]
        exact Or.inr h'
      · rw [hM, hmerged]
        exact Or.inl h'
    · rw [hM]
      exact pyMaxKeys_ge hka0
    · intro k hk
      rw [hM]
      refine pyMaxKeys_ge ?_
      rw [hmerged]
      exact (alKeys_insert states a0 v0 k).mpr (Or.inl hk)
    · rw [hmerged]
      exact alLookup_insert_self states a0 v0
    · intro a ha1 ha2
      rw [hf']
      exact hS a ha1 (by rw [← hM]; exact ha2)
  · intro states frame M hne hnd hpos hf hM
    have hf' : frame = setDmxValueArray states := by
      rw [hf, buildFrame, getAllDeviceDmxStates]
    obtain ⟨hL, hS⟩ := setDmxValueArray_spec states hne hnd hpos
    refine ⟨by rw [hf', hL, hM], ?_, ?_, ?_⟩
    · rw [hM]; exact pyMaxKeys_mem hne
    · intro k hk
      rw [hM]
      exact pyMaxKeys_ge hk
    · intro a ha1 ha2
      rw [hf']
      exact hS a ha1 (by rw [← hM]; exact ha2)

/-- C1 (witness): states `{2 ↦ "0"}` with override `(3, "255")` produce
the dense frame `["0", "0", "255"]` of length `3 = max {2, 3}`. -/
theorem C1_frame_density_witness :
    ((1 : Int) ≤ 3) ∧
    buildFrame [((2 : Int), "0")] (some (3, "255")) = ["0", "0", "255"] ∧
    ((buildFrame [((2 : Int), "0")] (some (3, "255"))).length : Int) =
      pyMaxKeys (getAllDeviceDmxStates [((2 : Int), "0")] (some (3, "255"))).1 := by
  refine ⟨by norm_num, by decide, ?_⟩
  exact (C1_frame_density.1 [((2 : Int), "0")] 3 "255" _ _ _ (by decide) (by decide)
    (by norm_num) rfl rfl rfl).1

/-- C6 (counterexample): at `uid = "123456789F.1"` the code carries the
nibble increment into the preceding character (`"1234:56789F"` becomes
`"1234:5678A0"`), so it is not true that all characters other than the
last hexadecimal nibble are unchanged relative to the sibling uid
`"123456789F"`. -/
theorem C6_counterexample :
    calculate_dmx_uid "123456789F.1" = "1234:5678A0" ∧
    calculate_dmx_uid "123456789F" = "1234:56789F" ∧
    (calculate_dmx_uid "123456789F.1").data.dropLast ≠
      (calculate_dmx_uid "123456789F").data.dropLast :=
  ⟨by decide, by decide, by decide⟩

/-- C6 (amended): `calculate_dmx_uid` is a pure function of its input,
and for every uid ending in `".1"` whose sibling (the uid without that
suffix) does not itself end in `".1"`, if the last two characters of the
colon-formatted base are hexadecimal digits in the canonical upper-case
form with the last nibble below `F` (so no carry occurs), then the
`".1"` result's last hexadecimal nibble is exactly one greater than the
sibling result's, with all other characters unchanged. -/
theorem C6_dmx_uid_increment :
    (∀ uid : String, calculate_dmx_uid uid = calculate_dmx_uid uid) ∧
    (∀ (uid sibling : String) (q : List Char) (c1 c2 : Char) (v1 v2 : Nat),
      uid.data = sibling.data ++ ['.', '1'] →
      listEndsWith ['.', '1'] sibling.data = false →
      colonFormat (beforeFirstDot sibling.data) = q ++ [c1, c2] →
      isUpperHexDigit c1 = true →
      hexDigitVal? c1 = some v1 → hexDigitVal? c2 = some v2 → v2 < 15 →
      calculate_dmx_uid sibling = ⟨q ++ [c1, c2]⟩ ∧
      calculate_dmx_uid uid = ⟨q ++ [c1, hexUpper (v2 + 1)]⟩ ∧
      hexDigitVal? (hexUpper (v2 + 1)) = some (v2 + 1)) := by
  refine ⟨fun _ => rfl, ?_⟩
  intro uid sibling q c1 c2 v1 v2 hdata hy hq hu h1 h2 hlt
  obtain ⟨hs, hi⟩ := calcDmxChars_dot1 hy hq hu h1 h2 hlt
  refine ⟨?_, ?_, hexUpper_val (by omega)⟩
  · rw [calculate_dmx_uid, hs]
  · rw [calculate_dmx_uid, hdata, hi]

/-- C6 (witness): the spec's own example `"1234567890.1"`, whose last
nibble `0` increments to `1` with every other character unchanged. -/
theorem C6_dmx_uid_increment_witness :
    "1234567890.1".data = "1234567890".data ++ ['.', '1'] ∧
    calculate_dmx_uid "1234567890" = "1234:567890" ∧
    calculate_dmx_uid "1234567890.1" = "1234:567891" := by
  have h := C6_dmx_uid_increment.2 "1234567890.1" "1234567890" "1234:5678".data
    '9' '0' 9 0 (by decide) (by decide) (by decide) (by decide)
    (by decide) (by decide) (by decide)
  refine ⟨by decide, ?_, ?_⟩
  · rw [h.1]; decide
  · rw [h.2.1]; decide

/-- C10: `calculate_dmx_uid` is total — the exception-explicit run of
its body returns a value for every uid string (the `try`/`except`
around the `int` call is the only fallible point and is always caught),
and when the uid ends in `".1"` but the last two characters of the
colon-formatted base do not parse as hexadecimal, those characters are
returned unchanged. -/
theorem C10_total : ∀ uid : String,
    calcDmxUidRun uid.data = Except.ok (calcDmxChars uid.data) ∧
    calculate_dmx_uid uid = ⟨calcDmxChars uid.data⟩ ∧
    (listEndsWith ['.', '1'] uid.data = true →
      pyIntHex ((colonFormat (beforeFirstDot uid.data)).drop
        ((colonFormat (beforeFirstDot uid.data)).length - 2)) = none →
      calculate_dmx_uid uid = ⟨colonFormat (beforeFirstDot uid.data)⟩) := by
  intro uid
  refine ⟨?_, rfl, ?_⟩
  · simp only [calcDmxUidRun, calcDmxChars, pyIntHexExc, tryIncrement]
    cases he : listEndsWith ['.', '1'] uid.data
    · simp [he]
    · simp only [he, if_true]
      cases hp : pyIntHex ((colonFormat (beforeFirstDot uid.data)).drop
          ((colonFormat (beforeFirstDot uid.data)).length - 2)) <;> simp [hp]
  · intro he hp
    rw [calculate_dmx_uid]
    simp only [calcDmxChars, he, if_true, tryIncrement, hp]
    rw [List.take_append_drop]

/-- C10 (witness): `"12Z4.1"` ends in `".1"` but `"4:"` is not
hexadecimal; the characters are kept and the run returns normally. -/
theorem C10_total_witness :
    listEndsWith ['.', '1'] "12Z4.1".data = true ∧
    pyIntHex ((colonFormat (beforeFirstDot "12Z4.1".data)).drop
      ((colonFormat (beforeFirstDot "12Z4.1".data)).length - 2)) = none ∧
    calcDmxUidRun "12Z4.1".data = Except.ok "12Z4:".data ∧
    calculate_dmx_uid "12Z4.1" = "12Z4:" := by
  have h := C10_total "12Z4.1"
  refine ⟨by decide, by decide, ?_, ?_⟩
  · rw [h.1]
    exact congrArg Except.ok (by decide)
  · rw [h.2.2 (by decide) (by decide)]; decide

/-- C4 (counterexample): `_handle_coordinator_update` reads no clock and
no cooldown: a telemetry value differing from the last commanded state
is adopted unconditionally — in particular when it arrives one second
after a local command, well inside the default 30-second cooldown, the
last-commanded state IS changed, contradicting the claim. -/
theorem C4_counterexample :
    handleCoordinatorUpdate (some false)
      { attr_is_on := some true, last_commanded := some true } =
      { attr_is_on := some false, last_commanded := some false } := by decide

/-- C4 (amended): reconciliation adopts a differing telemetry-confirmed
relay status immediately and unconditionally — the function has no time
input, so the adoption happens regardless of how much time has elapsed
since the last local command.  (The "after the cooldown" half of the
original claim holds; the "not before" half does not.) -/
theorem C4_reconciliation_always_adopts :
    ∀ (ns : Bool) (st : BreakerState),
      some ns ≠ st.last_commanded →
      handleCoordinatorUpdate (some ns) st =
        { attr_is_on := some ns, last_commanded := some ns } := by
  intro ns st h
  simp [handleCoordinatorUpdate, h]

/-- C4 (witness): a telemetry OFF after a commanded ON is adopted. -/
theorem C4_reconciliation_always_adopts_witness :
    some false ≠ (({ attr_is_on := some true, last_commanded := some true } :
      BreakerState)).last_commanded ∧
    handleCoordinatorUpdate (some false)
      { attr_is_on := some true, last_commanded := some true } =
      { attr_is_on := some false, last_commanded := some false } :=
  ⟨by decide, C4_reconciliation_always_adopts false
    { attr_is_on := some true, last_commanded := some true } (by decide)⟩

/-- C2 (counterexample): a first toggle that is a no-op (turn_on on an
already-ON breaker) passes the gate without arming the shared
`_last_command_time`; a second toggle issued one second later — well
inside the 30-second cooldown — is then NOT rejected: it fetches the
address, sends a DMX command, changes state, and raises no rate-limited
notice. -/
theorem C2_counterexample :
    ((1001 : ℚ) - 1000 < 30) ∧
    (asyncTurnOn ⟨30, 1000, some true, some 5, true⟩ 0
      ⟨some true, some true⟩).lastCmdTime = 0 ∧
    (asyncTurnOn ⟨30, 1000, some true, some 5, true⟩ 0
      ⟨some true, some true⟩).sends = 0 ∧
    (asyncTurnOff ⟨30, 1001, some true, some 5, true⟩
      (asyncTurnOn ⟨30, 1000, some true, some 5, true⟩ 0
        ⟨some true, some true⟩).lastCmdTime
      ⟨some true, some true⟩).sends = 1 ∧
    (asyncTurnOff ⟨30, 1001, some true, some 5, true⟩
      (asyncTurnOn ⟨30, 1000, some true, some 5, true⟩ 0
        ⟨some true, some true⟩).lastCmdTime
      ⟨some true, some true⟩).notified = false := by
  have h1 : asyncTurnOn ⟨30, 1000, some true, some 5, true⟩ 0
      ⟨some true, some true⟩ =
      ⟨⟨some true, some true⟩, 0, 0, 0, false⟩ := by
    rw [asyncTurnOn, if_neg (by norm_num), if_neg (by simp [isOnProp])]
  have h2 : asyncTurnOff ⟨30, 1001, some true, some 5, true⟩ 0
      ⟨some true, some true⟩ =
      ⟨⟨some false, some false⟩, 1001, 1, 1, false⟩ := by
    rw [asyncTurnOff, if_neg (by norm_num), if_pos (by simp [isOnProp])]
  rw [h1]
  refine ⟨by norm_num, rfl, rfl, ?_, ?_⟩ <;> rw [h2]

/-- C2 (amended): once a toggle has actually initiated a command and so
armed the process-wide `_last_command_time`, any toggle request
(turn_on or turn_off, on any breaker) issued less than the cooldown
later is rejected: it performs no address fetch and no DMX send, leaves
the breaker state and the shared timestamp unchanged, and creates the
rate-limited notification.  A gate-passing toggle that enters its
command body arms the timestamp with the current instant.  (A no-op
toggle — breaker already in the requested state — does not arm the
gate, which is what the counterexample exploits.) -/
theorem C2_cooldown_gate :
    (∀ (env : ToggleEnv) (lastCmd : ℚ) (st : BreakerState),
      env.now - lastCmd < env.cooldown →
      asyncTurnOn env lastCmd st = ⟨st, lastCmd, 0, 0, true⟩ ∧
      asyncTurnOff env lastCmd st = ⟨st, lastCmd, 0, 0, true⟩) ∧
    (∀ (env : ToggleEnv) (lastCmd : ℚ) (st : BreakerState),
      ¬(env.now - lastCmd < env.cooldown) →
      isOnProp st env.relaySensor = false →
      (asyncTurnOn env lastCmd st).lastCmdTime = env.now) ∧
    (∀ (env : ToggleEnv) (lastCmd : ℚ) (st : BreakerState),
      ¬(env.now - lastCmd < env.cooldown) →
      isOnProp st env.relaySensor = true →
      (asyncTurnOff env lastCmd st).lastCmdTime = env.now) := by
  refine ⟨?_, ?_, ?_⟩
  · intro env lastCmd st h
    constructor <;> simp [asyncTurnOn, asyncTurnOff, h]
  · intro env lastCmd st h hon
    rw [asyncTurnOn, if_neg h, if_pos hon]
    cases env.dmxAddr <;> rfl
  · intro env lastCmd st h hon
    rw [asyncTurnOff, if_neg h, if_pos hon]
    cases env.dmxAddr <;> rfl

/-- C2 (witness): with the gate armed at 0 and a request at 10 (cooldown
30), both toggle handlers reject with zero fetches and sends. -/
theorem C2_cooldown_gate_witness :
    ((10 : ℚ) - 0 < 30) ∧
    asyncTurnOn ⟨30, 10, some true, some 1, true⟩ 0 ⟨some true, some true⟩ =
      ⟨⟨some true, some true⟩, 0, 0, 0, true⟩ ∧
    asyncTurnOff ⟨30, 10, some true, some 1, true⟩ 0 ⟨some true, some true⟩ =
      ⟨⟨some true, some true⟩, 0, 0, 0, true⟩ := by
  have h := C2_cooldown_gate.1 ⟨30, 10, some true, some 1, true⟩ 0
    ⟨some true, some true⟩ (by norm_num)
  exact ⟨by norm_num, h.1, h.2⟩

/-- C3 (counterexample): with the DMX send failing
(`sendOk = false`), `async_turn_on` still flips the cached state and the
last-commanded state to ON, performs the send, and surfaces nothing to
the caller — the failed toggle appears to succeed. -/
theorem C3_counterexample :
    ((⟨30, 100, some false, some 5, false⟩ : ToggleEnv).sendOk = false) ∧
    (asyncTurnOn ⟨30, 100, some false, some 5, false⟩ 0
      ⟨some false, some false⟩).st = ⟨some true, some true⟩ ∧
    (asyncTurnOn ⟨30, 100, some false, some 5, false⟩ 0
      ⟨some false, some false⟩).sends = 1 ∧
    (asyncTurnOn ⟨30, 100, some false, some 5, false⟩ 0
      ⟨some false, some false⟩).notified = false := by
  have h : asyncTurnOn ⟨30, 100, some false, some 5, false⟩ 0
      ⟨some false, some false⟩ =
      ⟨⟨some true, some true⟩, 100, 1, 1, false⟩ := by
    rw [asyncTurnOn, if_neg (by norm_num), if_pos (by simp [isOnProp])]
  rw [h]
  exact ⟨rfl, rfl, rfl, rfl⟩

/-- C3 (amended): the toggle handlers discard the send result: whenever
a toggle passes the cooldown gate, finds the breaker not already in the
requested state and obtains a DMX address, the cached on/off state and
last-commanded state are set to the target value whatever the sender
returned, the failure is only logged inside the send helper, and no
failure is reported to the caller. -/
theorem C3_send_result_ignored :
    (∀ (env : ToggleEnv) (lastCmd : ℚ) (st : BreakerState),
      ¬(env.now - lastCmd < env.cooldown) →
      isOnProp st env.relaySensor = false → env.dmxAddr ≠ none →
      (asyncTurnOn env lastCmd st).st = ⟨some true, some true⟩ ∧
      (asyncTurnOn env lastCmd st).notified = false) ∧
    (∀ (env : ToggleEnv) (lastCmd : ℚ) (st : BreakerState),
      ¬(env.now - lastCmd < env.cooldown) →
      isOnProp st env.relaySensor = true → env.dmxAddr ≠ none →
      (asyncTurnOff env lastCmd st).st = ⟨some false, some false⟩ ∧
      (asyncTurnOff env lastCmd st).notified = false) := by
  constructor
  · intro env lastCmd st h hon haddr
    rw [asyncTurnOn, if_neg h, if_pos hon]
    cases haddrv : env.dmxAddr with
    | none => exact absurd haddrv haddr
    | some a => exact ⟨rfl, rfl⟩
  · intro env lastCmd st h hon haddr
    rw [asyncTurnOff, if_neg h, if_pos hon]
    cases haddrv : env.dmxAddr with
    | none => exact absurd haddrv haddr
    | some a => exact ⟨rfl, rfl⟩

/-- C3 (witness): a failing send (`sendOk = false`) still flips the
state to ON with no notice. -/
theorem C3_send_result_ignored_witness :
    ¬((100 : ℚ) - 0 < 30) ∧
    (asyncTurnOn ⟨30, 100, some false, some 5, false⟩ 0
      ⟨some false, some false⟩).st = ⟨some true, some true⟩ := by
  refine ⟨by norm_num, ?_⟩
  exact (C3_send_result_ignored.1 ⟨30, 100, some false, some 5, false⟩ 0
    ⟨some false, some false⟩ (by norm_num) (by simp [isOnProp]) (by simp)).1

/-- C7: across any sequence of Send calls the process-wide request
counter never decreases (each call increments it by one), and after
every call — testing-mode success, real success, non-zero exit, or
exception — the recorded success rate equals
`(request_count - failure_count) / request_count * 100` computed from
the post-call counters; the embedded `try`/`except` returns a boolean
on every path. -/
theorem C7_stats_invariants :
    (∀ (stats : DmxApiStats) (calls : List SendCall),
      stats.request_count ≤ (runSends stats calls).request_count) ∧
    (∀ (stats : DmxApiStats) (now : ℚ) (tm : Bool) (curl : CurlOutcome),
      (async_set_dmx_values stats now tm curl).1.request_count =
        stats.request_count + 1 ∧
      (async_set_dmx_values stats now tm curl).1.success_rate =
        (((async_set_dmx_values stats now tm curl).1.request_count : ℚ) -
          ((async_set_dmx_values stats now tm curl).1.failure_count : ℚ)) /
          ((async_set_dmx_values stats now tm curl).1.request_count : ℚ) * 100) := by
  have hstep : ∀ (stats : DmxApiStats) (now : ℚ) (tm : Bool) (curl : CurlOutcome),
      (async_set_dmx_values stats now tm curl).1.request_count =
        stats.request_count + 1 := by
    intro stats now tm curl
    rw [async_set_dmx_values.eq_def]
    cases tm
    · cases curl with
      | exc => rfl
      | done rc =>
        simp only [Bool.false_eq_true, if_false]
        by_cases hrc : rc ≠ 0
        · rw [if_pos hrc]
        · rw [if_neg hrc]
    · rfl
  refine ⟨?_, ?_⟩
  · intro stats calls
    induction calls generalizing stats with
    | nil => exact le_refl _
    | cons c t ih =>
      calc stats.request_count
          ≤ (async_set_dmx_values stats c.now c.testing_mode c.curl).1.request_count := by
            rw [hstep]; omega
        _ ≤ _ := ih _
  · intro stats now tm curl
    refine ⟨hstep stats now tm curl, ?_⟩
    rw [async_set_dmx_values.eq_def]
    cases tm
    · cases curl with
      | exc => rfl
      | done rc =>
        simp only [Bool.false_eq_true, if_false]
        by_cases hrc : rc ≠ 0
        · rw [if_pos hrc]; rfl
        · rw [if_neg hrc]; rfl
    · rfl

/-- C8 (counterexample): `is_dmx_api_available` reads the module
variable `_last_successful_api_call`, which `async_set_dmx_values` never
assigns — it updates only `_dmx_api_stats["last_successful_call"]`.  A
Send succeeding at t = 60 with the last status-reader success at t = 0
returns `True` and records its success in the stats dict, yet
`is_dmx_api_available` at the same instant returns `False`. -/
theorem C8_counterexample :
    (sendOnGlobals ⟨initDmxApiStats, some 0⟩ 60 false (CurlOutcome.done 0)).2 = true ∧
    (sendOnGlobals ⟨initDmxApiStats, some 0⟩ 60 false
      (CurlOutcome.done 0)).1.dmx_api_stats.last_successful_call = some 60 ∧
    is_dmx_api_available
      (sendOnGlobals ⟨initDmxApiStats, some 0⟩ 60 false
        (CurlOutcome.done 0)).1.last_successful_api_call 60 = false := by
  have h : sendOnGlobals ⟨initDmxApiStats, some 0⟩ 60 false (CurlOutcome.done 0) =
      (⟨⟨1, 0, some 60, recomputeRate 1 0⟩, some 0⟩, true) := by
    rw [sendOnGlobals, async_set_dmx_values]
    rfl
  rw [h]
  refine ⟨rfl, rfl, ?_⟩
  rw [is_dmx_api_available]
  simp only [decide_eq_false_iff_not, DMX_API_TIMEOUT]
  norm_num

/-- C8 (amended): `is_dmx_api_available` returns true iff no status
fetch has ever succeeded (the module variable is still `None`) or the
most recent status-fetch success lies within the 30-second window; a
Send success leaves that module variable untouched (it updates the
separate stats-dict timestamp), so a successful Send does not by itself
make the API count as available. -/
theorem C8_liveness_window :
    (∀ (last : Option ℚ) (now : ℚ),
      is_dmx_api_available last now = true ↔
        (last = none ∨ ∃ t, last = some t ∧ now - t < DMX_API_TIMEOUT)) ∧
    (∀ (g : UtilsGlobals) (now : ℚ) (tm : Bool) (curl : CurlOutcome),
      (sendOnGlobals g now tm curl).1.last_successful_api_call =
        g.last_successful_api_call) := by
  constructor
  · intro last now
    cases last with
    | none => simp [is_dmx_api_available]
    | some t => simp [is_dmx_api_available]
  · intro g now tm curl
    rfl

/-- C5: for every well-formed JSON document with top-level field
`presentDemands`, the framed bytes `b"\nSET_ENERGY=" +
base64(utf8(json.dumps(doc))) + b"\n"` run through the snapshot decoder
return a document equal to the original; and on the concrete Kitchen
scenario the decoded document is `kitchenDoc` — one breaker, whose
`"name"` is `"Kitchen"` and whose `"percentCommanded"` is the integer
literal 100. -/
theorem C5_roundtrip_framing :
    (∀ doc : Json, wfJson doc = true →
      hasTopLevelKey doc ("presentDemands".data) = true →
      get_current_energy_snapshot (Except.ok (framedSnapshotBytes doc)) = some doc) ∧
    (get_current_energy_snapshot (Except.ok (framedSnapshotBytes kitchenDoc)) =
        some kitchenDoc ∧
      kvsGet kitchenBreaker ("name".data) = some (Json.str ("Kitchen".data)) ∧
      kvsGet kitchenBreaker ("percentCommanded".data) =
        some (Json.num (JNum.mk false [1, 0, 0] [] none))) := by
  have h1 : ∀ doc : Json, wfJson doc = true →
      hasTopLevelKey doc ("presentDemands".data) = true →
      get_current_energy_snapshot (Except.ok (framedSnapshotBytes doc)) = some doc := by
    intro doc hdoc _
    rw [get_current_energy_snapshot, snapshotOutcome, processSnapshot_framed doc hdoc]
    rfl
  exact ⟨h1, h1 kitchenDoc (by decide) (by decide), by decide, by decide⟩

/-- C5 witness: the round trip instantiated at the Kitchen document. -/
theorem C5_roundtrip_framing_witness :
    get_current_energy_snapshot (Except.ok (framedSnapshotBytes kitchenDoc)) =
      some kitchenDoc :=
  C5_roundtrip_framing.1 kitchenDoc (by decide) (by decide)

/-- C9: the snapshot fetch exits through a handler on every failure,
never an unhandled exception: a socket error exits through the
`socket.error` handler with `None`; an empty accumulated read returns
`None` as "no data"; a payload that is not valid base64 exits through
the `binascii.Error` handler (a decode-stage failure) with `None`; a
decoded JSON text that does not parse exits through the
`JSONDecodeError` handler (also a decode-stage failure) with `None` —
and an empty payload takes exactly that path, because `b64decode("")`
succeeds with empty bytes and `json.loads("")` then fails. -/
theorem C9_error_handling :
    (∀ e : Unit, snapshotOutcome (Except.error e) = SnapOutcome.connError ∧
      get_current_energy_snapshot (Except.error e) = none) ∧
    (snapshotOutcome (Except.ok []) = SnapOutcome.noData ∧
      get_current_energy_snapshot (Except.ok []) = none) ∧
    (∀ (data : List Nat) (s0 : List Char), data ≠ [] →
      utf8Decode data = some s0 → b64decode (snapshotPayload s0) = none →
      processSnapshotBytes data = SnapOutcome.b64Error ∧
      (processSnapshotBytes data).isDecodeError = true ∧
      get_current_energy_snapshot (Except.ok data) = none) ∧
    (∀ (data : List Nat) (s0 : List Char) (bytes : List Nat) (js : List Char),
      data ≠ [] → utf8Decode data = some s0 →
      b64decode (snapshotPayload s0) = some bytes → utf8Decode bytes = some js →
      jsonLoads js = none →
      processSnapshotBytes data = SnapOutcome.jsonError ∧
      (processSnapshotBytes data).isDecodeError = true ∧
      get_current_energy_snapshot (Except.ok data) = none) ∧
    (∀ (data : List Nat) (s0 : List Char), data ≠ [] →
      utf8Decode data = some s0 → snapshotPayload s0 = [] →
      processSnapshotBytes data = SnapOutcome.jsonError) := by
  refine ⟨fun e => ⟨rfl, rfl⟩, ⟨rfl, rfl⟩, ?_, ?_, ?_⟩
  · intro data s0 hne hdec hb64
    have hp : processSnapshotBytes data = SnapOutcome.b64Error := by
      rw [processSnapshotBytes, if_neg hne, hdec]
      dsimp only
      rw [hb64]
    refine ⟨hp, by rw [hp]; rfl, ?_⟩
    rw [get_current_energy_snapshot, snapshotOutcome, hp]
    rfl
  · intro data s0 bytes js hne hdec hb64 hutf hjson
    have hp : processSnapshotBytes data = SnapOutcome.jsonError := by
      rw [processSnapshotBytes, if_neg hne, hdec]
      dsimp only
      rw [hb64]
      dsimp only
      rw [hutf]
      dsimp only
      rw [hjson]
    refine ⟨hp, by rw [hp]; rfl, ?_⟩
    rw [get_current_energy_snapshot, snapshotOutcome, hp]
    rfl
  · intro data s0 hne hdec hpay
    rw [processSnapshotBytes, if_neg hne, hdec]
    dsimp only
    rw [hpay]
    rfl

/-- C9 witness: a lone non-base64-decodable byte trips the `binascii`
handler, and marker framing around an empty payload trips the JSON
handler. -/
theorem C9_error_handling_witness :
    processSnapshotBytes [65] = SnapOutcome.b64Error ∧
    processSnapshotBytes (utf8Encode ('\n' :: (markerChars ++ ['\n']))) =
      SnapOutcome.jsonError :=
  ⟨(C9_error_handling.2.2.1 [65] ['A'] (by decide) (by decide) (by decide)).1,
   C9_error_handling.2.2.2.2 (utf8Encode ('\n' :: (markerChars ++ ['\n'])))
     ('\n' :: (markerChars ++ ['\n'])) (by decide) (by decide) (by decide)⟩

end SavantPbc

